import Mathlib

/-!
Shallow embedding of the naming / metadata-derivation core of the
mkbrr-wizard repository (`hardlink_wizard.py` and `rip_renamer.py`),
together with theorems settling the frozen claims about it.

Strings are modelled as Lean `String` / `List Char`.  Python regular
expressions are modelled by specialised backtracking matchers that follow
the Python `re` engine's preference order (greedy / lazy, leftmost search,
ordered alternation).  `\s` and `\d` are modelled by their ASCII subsets,
which is exact on all inputs the scripts handle.  I/O (directory listing,
`mediainfo` subprocess) is abstracted: functions that consumed probe or
directory data take the already-extracted values as explicit arguments.
-/

namespace MkbrrWizard

/-- ASCII whitespace, the class Python's `\s` and `str.strip()` use on
ASCII text: space, tab, newline, carriage return, vertical tab, form feed. -/
def isSpacePy (c : Char) : Bool :=
  c == ' ' || c == '\t' || c == '\n' || c == '\r' || c == Char.ofNat 11 || c == Char.ofNat 12

/-- The character class `[A-Za-z0-9]` used by `slugify_title`. -/
def isAlnumAscii (c : Char) : Bool :=
  (('A' ≤ c) && (c ≤ 'Z')) || (('a' ≤ c) && (c ≤ 'z')) || (('0' ≤ c) && (c ≤ '9'))

/-- Fuel-driven digit expansion; `fuel` only bounds the recursion depth
and any `fuel > n` is enough. -/
def natDigitsGo : Nat → Nat → List Char
  | 0, _ => []
  | fuel + 1, n =>
    if n < 10 then [Char.ofNat (48 + n)]
    else natDigitsGo fuel (n / 10) ++ [Char.ofNat (48 + n % 10)]

/-- Decimal digit characters of `n`, most significant first (Python `"%d" % n`). -/
def natDigits (n : Nat) : List Char :=
  natDigitsGo (n + 1) n

/-- Python `f"{n:0{w}d}"`: decimal digits of `n` left-padded with zeros to
width `w`; never truncates. -/
def padNum (w n : Nat) : String :=
  String.mk (List.replicate (w - (natDigits n).length) '0' ++ natDigits n)

/-- Python `".".join(parts)`. -/
def joinDots (parts : List String) : String :=
  match parts with
  | [] => ""
  | a :: rest => rest.foldl (fun acc p => acc ++ "." ++ p) a

/-- Python substring test `needle in hay` on character lists. -/
def containsSub (hay needle : List Char) : Bool :=
  hay.tails.any (fun t => needle.isPrefixOf t)

/-- Python substring test `needle in hay` on strings. -/
def containsStr (hay needle : String) : Bool :=
  containsSub hay.data needle.data

/-- Python `str.lower()` (character-wise; ASCII on all inputs here). -/
def strLower (s : String) : String :=
  String.mk (s.data.map Char.toLower)

/-- The `SeasonMeta` TypedDict of `hardlink_wizard.py`. -/
structure SeasonMeta where
  resolution : String
  source : String
  audio : String
  codec : String
  remux : Bool
deriving DecidableEq

/-- `FALLBACK_META` of `hardlink_wizard.py` (its `audio` value gets the
channel suffix appended dynamically by `detect_audio`). -/
def FALLBACK_META : SeasonMeta :=
  { resolution := "1080p", source := "BluRay", audio := "TrueHD", codec := "H.264", remux := true }

/-! ## slugify_title

`slugify_title` (identical logic in `hardlink_wizard.py` and
`rip_renamer.py`, the latter only adds a debug log): strip apostrophes,
replace each maximal run of characters outside `[A-Za-z0-9]` with one dot,
collapse dot runs, strip leading/trailing dots.  All three `replace`
calls in the source strip the ASCII apostrophe (byte 0x27). -/

/-- `re.sub(r"[^A-Za-z0-9]+", ".", s)` as a left-to-right scan.  `inRun`
records whether the scan is inside a non-alphanumeric run whose single
replacement dot has already been emitted. -/
def subNonAlnum : Bool → List Char → List Char
  | _, [] => []
  | inRun, c :: t =>
    if isAlnumAscii c then c :: subNonAlnum false t
    else if inRun then subNonAlnum true t
    else '.' :: subNonAlnum true t

/-- `re.sub(r"\.+", ".", s)`: collapse each run of dots to a single dot. -/
def collapseDots : Bool → List Char → List Char
  | _, [] => []
  | inRun, c :: t =>
    if c == '.' then
      if inRun then collapseDots true t else '.' :: collapseDots true t
    else c :: collapseDots false t

/-- Python `s.strip(".")`. -/
def stripDots (l : List Char) : List Char :=
  ((l.dropWhile (fun c => c == '.')).reverse.dropWhile (fun c => c == '.')).reverse

/-- `slugify_title` from the source: apostrophes stripped, non-alphanumeric
runs dotted, dot runs collapsed, ends stripped of dots. -/
def slugify_title (title : String) : String :=
  let s0 := title.data.filter (fun c => c ≠ Char.ofNat 39)
  String.mk (stripDots (collapseDots false (subNonAlnum false s0)))

/-- Cleanliness invariants of slug output, used to prove idempotence:
no two adjacent dots, every character alphanumeric-or-dot, and no dot at
either end. -/
def NoTwoDots : List Char → Prop :=
  List.Chain' (fun a b => ¬(a = '.' ∧ b = '.'))

def SlugChars (l : List Char) : Prop :=
  ∀ c ∈ l, isAlnumAscii c = true ∨ c = '.'

def HeadNotDot (l : List Char) : Prop :=
  ∀ c ∈ l.head?, c ≠ '.'

def LastNotDot (l : List Char) : Prop :=
  ∀ c ∈ l.getLast?, c ≠ '.'

/-! ## Episode tags and name builders -/

/-- `ep_width = 3 if episode >= 100 else 2` in `build_dest_filename`. -/
def dest_ep_width (episode : Nat) : Nat :=
  if 100 ≤ episode then 3 else 2

/-- The `ep_tag` built inside `build_dest_filename`. -/
def dest_ep_tag (series_slug : String) (season episode : Nat) : String :=
  series_slug ++ ".S" ++ padNum 2 season ++ "E" ++ padNum (dest_ep_width episode) episode

/-- `build_dest_filename` of `hardlink_wizard.py`.  Note the parts list
always contains the title slug, even when it is empty. -/
def build_dest_filename (series_slug group : String) (season episode : Nat)
    (title : String) (season_meta : SeasonMeta) : String :=
  let ep_title_slug := slugify_title title
  let parts := [dest_ep_tag series_slug season episode, ep_title_slug,
      season_meta.resolution, season_meta.source]
    ++ (if season_meta.remux then ["Remux"] else [])
  joinDots parts ++ "." ++ season_meta.audio ++ "."
    ++ season_meta.codec ++ "-" ++ group ++ ".mkv"

/-- `ep_width = 3 if ep_num >= 100 else 2` computed again in
`process_seasons` for the log-facing tag. -/
def log_ep_width (ep_num : Nat) : Nat :=
  if 100 ≤ ep_num then 3 else 2

/-- The log-facing tag `f"S{file_season:02d}E{ep_num:0{ep_width}d}"` of
`process_seasons`. -/
def log_ep_tag (file_season ep_num : Nat) : String :=
  "S" ++ padNum 2 file_season ++ "E" ++ padNum (log_ep_width ep_num) ep_num

/-- The metadata dict consumed by `build_btn_filename` in `rip_renamer.py`
(the dict's `.get` defaults are elided: every key is present on the records
`detect_metadata_from_file` produces). -/
structure BtnMeta where
  resolution : String
  source : String
  remux : Bool
  audio : String
  codec : String

/-- `audio.replace(" ", "")` of `build_btn_filename`. -/
def removeSpaces (s : String) : String :=
  String.mk (s.data.filter (fun c => c ≠ ' '))

/-- `re.sub(r"\s*\d+bit$", "", codec)` of `build_btn_filename`: remove a
trailing run of whitespace, then one-or-more digits, then `bit`, anchored
at the end of the string. -/
def strip_bit_depth (codec : String) : String :=
  match codec.data.reverse with
  | 't' :: 'i' :: 'b' :: r =>
    if (r.takeWhile Char.isDigit).isEmpty then codec
    else String.mk (((r.dropWhile Char.isDigit).dropWhile isSpacePy).reverse)
  | _ => codec

/-- `build_btn_filename` of `rip_renamer.py`: the title slug part is
appended only when non-empty. -/
def build_btn_filename (series_slug : String) (season episode : Nat)
    (episode_title : String) (metadata : BtnMeta) (group : String) : String :=
  let ep_tag := series_slug ++ ".S" ++ padNum 2 season ++ "E" ++ padNum 2 episode
  let title_slug := if episode_title ≠ "" then slugify_title episode_title else ""
  let audio_btn := removeSpaces metadata.audio
  let codec_btn := strip_bit_depth metadata.codec
  let parts := [ep_tag]
    ++ (if title_slug ≠ "" then [title_slug] else [])
    ++ [metadata.resolution, metadata.source]
    ++ (if metadata.remux then ["Remux"] else [])
    ++ [audio_btn, codec_btn]
  joinDots parts ++ "-" ++ group ++ ".mkv"

/-! ## Metadata resolver -/

/-- The resolution step of `detect_season_metadata` in `hardlink_wizard.py`.
The I/O sampling loop (directory iteration, mediainfo probing with
filename-parsing fallback) is abstracted into the `file_metas` argument:
the per-file metadata records in sorted filename order.  The source keeps
only the first three (`[:3]`), returns `FALLBACK_META` for an empty batch,
and otherwise returns the first sample, warning (second component) when a
later sample differs. -/
def detect_season_metadata (file_metas : List SeasonMeta) : SeasonMeta × Bool :=
  let metadata_samples := file_metas.take 3
  match metadata_samples with
  | [] => (FALLBACK_META, false)
  | first :: rest => (first, rest.any (fun sample => sample ≠ first))

/-! ## Loose signal extractors of `hardlink_wizard.py` -/

/-- `detect_source`: case-insensitive substring checks in priority order. -/
def detect_source (name : String) : String :=
  let lower := strLower name
  if containsStr lower "bluray" || containsStr lower "blu-ray" then "BluRay"
  else if containsStr lower "web" then "WEB"
  else FALLBACK_META.source

/-- `detect_remux`: `"remux" in name.lower()`. -/
def detect_remux (name : String) : Bool :=
  containsStr (strLower name) "remux"

/-- `detect_codec`: case-insensitive keyword checks. -/
def detect_codec (name : String) : String :=
  let lower := strLower name
  if containsStr lower "hevc" || containsStr lower "x265" || containsStr lower "h265" then "H.265"
  else if containsStr lower "h264" || containsStr lower "x264" then "H.264"
  else FALLBACK_META.codec

/-- Exactly `n` digit characters from the front of `s`. -/
def takeNDigits : Nat → List Char → Option (List Char × List Char)
  | 0, s => some ([], s)
  | _ + 1, [] => none
  | n + 1, c :: t =>
    if c.isDigit then (takeNDigits n t).map (fun p => (c :: p.1, p.2)) else none

/-- Leftmost regex search: try a position matcher at every suffix, leftmost
first (Python `re.search`). -/
def reSearchFirst {α : Type} (f : List Char → Option α) : List Char → Option α
  | [] => f []
  | c :: t =>
    match f (c :: t) with
    | some v => some v
    | none => reSearchFirst f t

/-- `\d{3}p` (with `re.IGNORECASE`, so `P` too) at one position. -/
def matchRes3 (s : List Char) : Option (List Char) :=
  match takeNDigits 3 s with
  | some (ds, c :: _) => if c == 'p' || c == 'P' then some (ds ++ [c]) else none
  | _ => none

/-- `(\d{3,4}p)` at one position: the greedy engine tries four digits
first, then backtracks to three. -/
def matchResAt (s : List Char) : Option (List Char) :=
  match takeNDigits 4 s with
  | some (ds, c :: _) => if c == 'p' || c == 'P' then some (ds ++ [c]) else matchRes3 s
  | _ => matchRes3 s

/-- `detect_resolution`: first `\d{3,4}p` match, else the fallback. -/
def detect_resolution (name : String) : String :=
  match reSearchFirst matchResAt name.data with
  | some m => String.mk m
  | none => FALLBACK_META.resolution

/-! ## A small backtracking regex core

`matchRem r s` returns the possible remainders after matching `r` at the
front of `s`, in the Python engine's preference order (greedy quantifiers
longest-first, alternation left-first). -/

inductive RE where
  | eps : RE
  | cls : (Char → Bool) → RE
  | seq : RE → RE → RE
  | alt : RE → RE → RE
  | opt : RE → RE
  | starCls : (Char → Bool) → RE
  | neglook : RE → RE

/-- Remainders after consuming zero or more class-`p` characters, longest
consumption first (greedy `*` over a character class). -/
def clsStarRem (p : Char → Bool) : List Char → List (List Char)
  | [] => [[]]
  | c :: t => if p c then clsStarRem p t ++ [c :: t] else [c :: t]

/-- Remainders after consuming one or more class-`p` characters, longest
first (greedy `+` over a character class). -/
def clsPlusRem (p : Char → Bool) : List Char → List (List Char)
  | [] => []
  | c :: t => if p c then clsStarRem p t else []

def matchRem : RE → List Char → List (List Char)
  | .eps, s => [s]
  | .cls _, [] => []
  | .cls p, c :: t => if p c then [t] else []
  | .seq a b, s => (matchRem a s).flatMap (fun r => matchRem b r)
  | .alt a b, s => matchRem a s ++ matchRem b s
  | .opt a, s => matchRem a s ++ [s]
  | .starCls p, s => clsStarRem p s
  | .neglook a, s => if (matchRem a s).isEmpty then [s] else []

/-- `re.search(r, s)` viewed as a boolean: some suffix has a match. -/
def reSearch (r : RE) (s : String) : Bool :=
  s.data.tails.any (fun t => !(matchRem r t).isEmpty)

/-- Case-insensitive single character (`re.IGNORECASE`). -/
def charCI (c : Char) : Char → Bool :=
  fun x => x.toLower == c.toLower

/-- Case-insensitive literal word. -/
def litCI (w : String) : RE :=
  w.data.foldr (fun c acc => RE.seq (RE.cls (charCI c)) acc) RE.eps

/-! ## `detect_audio` of `hardlink_wizard.py` -/

def dashOrWs (c : Char) : Bool := c == '-' || isSpacePy c

def wsOrDot (c : Char) : Bool := isSpacePy c || c == '.'

/-- `DTS[-\s]?HD[\s.]?MA` -/
def re_dts_hd_ma : RE :=
  .seq (litCI "DTS") (.seq (.opt (.cls dashOrWs))
    (.seq (litCI "HD") (.seq (.opt (.cls wsOrDot)) (litCI "MA"))))

/-- `DTS[-\s]?HD[\s.]?HRA?` -/
def re_dts_hd_hra : RE :=
  .seq (litCI "DTS") (.seq (.opt (.cls dashOrWs))
    (.seq (litCI "HD") (.seq (.opt (.cls wsOrDot))
      (.seq (litCI "HR") (.opt (.cls (charCI 'A')))))))

/-- `DTS[-\s]?HD` -/
def re_dts_hd : RE :=
  .seq (litCI "DTS") (.seq (.opt (.cls dashOrWs)) (litCI "HD"))

/-- `EAC3|E-AC-?3|DDP|DD\+|Dolby\s*Digital\s*Plus` -/
def re_ddp : RE :=
  .alt (litCI "EAC3")
    (.alt (.seq (litCI "E-AC") (.seq (.opt (.cls (fun c => c == '-'))) (litCI "3")))
      (.alt (litCI "DDP")
        (.alt (litCI "DD+")
          (.seq (litCI "Dolby") (.seq (.starCls isSpacePy)
            (.seq (litCI "Digital") (.seq (.starCls isSpacePy) (litCI "Plus"))))))))

/-- `AC3|Dolby\s*Digital(?!\s*Plus)` -/
def re_dd : RE :=
  .alt (litCI "AC3")
    (.seq (litCI "Dolby") (.seq (.starCls isSpacePy)
      (.seq (litCI "Digital") (.neglook (.seq (.starCls isSpacePy) (litCI "Plus"))))))

/-- `LPCM|PCM` -/
def re_lpcm : RE :=
  .alt (litCI "LPCM") (litCI "PCM")

/-- The ordered `audio_codecs` table of `detect_audio`:
(pattern, base label, supports Atmos). -/
def audio_codecs : List (RE × String × Bool) :=
  [(re_dts_hd_ma, "DTS-HD.MA", false),
   (re_dts_hd_hra, "DTS-HD.HRA", false),
   (re_dts_hd, "DTS-HD", false),
   (litCI "DTS", "DTS", false),
   (litCI "TrueHD", "TrueHD", true),
   (litCI "FLAC", "FLAC", false),
   (re_ddp, "DDP", true),
   (re_dd, "DD", false),
   (litCI "AAC", "AAC", false),
   (re_lpcm, "LPCM", false),
   (litCI "Opus", "Opus", false)]

/-- Leftmost match of `(\d\.\d)` (the channel-layout token). -/
def findChannels : List Char → Option String
  | c1 :: c2 :: c3 :: rest =>
    if c1.isDigit && c2 == '.' && c3.isDigit then some (String.mk [c1, c2, c3])
    else findChannels (c2 :: c3 :: rest)
  | _ => none

/-- `detect_audio`: channel token (default `2.0`), Atmos flag, first
matching codec pattern wins; `A` suffix only for Atmos-capable codecs. -/
def detect_audio (name : String) : String :=
  let channels := (findChannels name.data).getD "2.0"
  let has_atmos := reSearch (litCI "atmos") name
  match audio_codecs.find? (fun entry => reSearch entry.1 name) with
  | some (_, label, supports_atmos) =>
    if has_atmos && supports_atmos then label ++ "A" ++ channels
    else label ++ channels
  | none => FALLBACK_META.audio ++ channels

/-! ## `detect_source_and_resolution` of `hardlink_wizard.py` -/

/-- First alternative that produces a full match wins. -/
def firstSome {α β : Type} : List α → (α → Option β) → Option β
  | [], _ => none
  | a :: t, f =>
    match f a with
    | some v => some v
    | none => firstSome t f

/-- Case-insensitive literal at the front, returning the matched slice of
the subject (groups keep the subject's case) and the remainder. -/
def splitLitCIAux : List Char → List Char → Option (List Char × List Char)
  | [], s => some ([], s)
  | _ :: _, [] => none
  | p :: ps, c :: t =>
    if charCI p c then (splitLitCIAux ps t).map (fun q => (c :: q.1, q.2)) else none

def splitLitCI (w : String) (s : List Char) : Option (List Char × List Char) :=
  splitLitCIAux w.data s

/-- `[^\]]*\]`: consume up to and including the next `]`. -/
def closeTail : List Char → Option (List Char)
  | [] => none
  | c :: t => if c == ']' then some t else closeTail t

/-- `(?P<remux>\s+Remux)?` body: one-or-more whitespace then `Remux`
(case-insensitive), greedy whitespace candidates tried longest first. -/
def dropRemux (s : List Char) : Option (List Char) :=
  match s with
  | c :: t =>
    if isSpacePy c then
      firstSome (clsStarRem isSpacePy t) (fun r => (splitLitCI "Remux" r).map (fun q => q.2))
    else none
  | [] => none

/-- After `<source>-`: one resolution alternative, the optional remux
group (preferred), then `[^\]]*\]`.  Returns (resolution text as matched,
remux-group-participated). -/
def tryRes (resPat : String) (r2 : List Char) : Option (String × Bool) :=
  (splitLitCI resPat r2).bind (fun q =>
    match dropRemux q.2 with
    | some r4 =>
      match closeTail r4 with
      | some _ => some (String.mk q.1, true)
      | none => (closeTail q.2).map (fun _ => (String.mk q.1, false))
    | none => (closeTail q.2).map (fun _ => (String.mk q.1, false)))

/-- One source alternative of the quality-block pattern. -/
def trySrc (srcPat : String) (r : List Char) : Option (String × String × Bool) :=
  (splitLitCI srcPat r).bind (fun q =>
    match q.2 with
    | '-' :: r2 =>
      firstSome ["720p", "1080p", "2160p"]
        (fun resPat => (tryRes resPat r2).map (fun pr => (String.mk q.1, pr.1, pr.2)))
    | _ => none)

/-- `\[(?P<source>Bluray|HDTV|WEBDL|WEBRip)-(?P<res>720p|1080p|2160p)`
`(?P<remux>\s+Remux)?[^\]]*\]` (with `re.IGNORECASE`) at one position. -/
def matchQualAt (s : List Char) : Option (String × String × Bool) :=
  match s with
  | c :: r =>
    if c == '[' then
      firstSome ["Bluray", "HDTV", "WEBDL", "WEBRip"] (fun srcPat => trySrc srcPat r)
    else none
  | [] => none

/-- `source_map` of `detect_source_and_resolution`. -/
def source_map : List (String × String) :=
  [("bluray", "BluRay"), ("hdtv", "HDTV"), ("webdl", "WEB-DL"), ("webrip", "WEBRip")]

/-- `detect_source_and_resolution`: the bracketed Sonarr quality block
(leftmost match) takes precedence; otherwise the loose detectors. -/
def detect_source_and_resolution (name : String) : String × String × Bool :=
  match reSearchFirst matchQualAt name.data with
  | some (srcRaw, res, remux) =>
    (((source_map.find? (fun kv => kv.1 == strLower srcRaw)).map (fun kv => kv.2)).getD "BluRay",
      res, remux)
  | none => (detect_source name, detect_resolution name, detect_remux name)

/-! ## `EP_REGEX` and `parse_episode_info` of `hardlink_wizard.py`

`S(?P<season>\d{2})E(?P<ep>\d{2,3})(?:-E\d{2,3})?\s*-\s*`
`(?:\d+(?:-\d+)?\s*-\s*)?(?P<title>.+?)\s*(?:\[|$)` (case-sensitive). -/

/-- `\d{2,3}` greedy: three digits preferred, then two. -/
def epCands (s : List Char) : List (List Char × List Char) :=
  (takeNDigits 3 s).toList ++ (takeNDigits 2 s).toList

/-- `(?:-E\d{2,3})?` greedy: with the range part first, then without. -/
def rangeCands (s : List Char) : List (List Char) :=
  (match s with
   | '-' :: 'E' :: r =>
     ((takeNDigits 3 r).toList ++ (takeNDigits 2 r).toList).map (fun p => p.2)
   | _ => []) ++ [s]

/-- `\s*-\s*`: greedy whitespace, a dash, greedy whitespace. -/
def sepCands (s : List Char) : List (List Char) :=
  (clsStarRem isSpacePy s).flatMap (fun r =>
    match r with
    | '-' :: r2 => clsStarRem isSpacePy r2
    | _ => [])

/-- `(?:-\d+)?` inside the absolute block, greedy. -/
def absInnerCands (r : List Char) : List (List Char) :=
  (match r with
   | '-' :: r2 => clsPlusRem Char.isDigit r2
   | _ => []) ++ [r]

/-- `(?:\d+(?:-\d+)?\s*-\s*)?` greedy: consume an absolute-number block
when possible, falling back to not consuming it. -/
def absCands (s : List Char) : List (List Char) :=
  ((clsPlusRem Char.isDigit s).flatMap (fun r1 =>
    (absInnerCands r1).flatMap (fun r2 => sepCands r2))) ++ [s]

/-- `\s*(?:\[|$)`: after optional whitespace, an opening bracket or the
end of the subject. -/
def tailOk (u : List Char) : Bool :=
  match u.dropWhile isSpacePy with
  | [] => true
  | c :: _ => c == '['

/-- `(?P<title>.+?)` lazily followed by `\s*(?:\[|$)`: the shortest
non-empty newline-free prefix whose remainder satisfies `tailOk`. -/
def titleMatch : List Char → Option (List Char)
  | [] => none
  | c :: t =>
    if c == '\n' then none
    else if tailOk t then some [c]
    else (titleMatch t).map (fun m => c :: m)

/-- Python `int` on a digit string. -/
def digitsToNat (ds : List Char) : Nat :=
  ds.foldl (fun a c => a * 10 + (c.toNat - 48)) 0

/-- The whole episode pattern at one position, with full backtracking in
engine order. -/
def epMatchAt (s : List Char) : Option (Nat × Nat × List Char) :=
  match s with
  | c :: r0 =>
    if c == 'S' then
      (takeNDigits 2 r0).bind (fun sd =>
        match sd.2 with
        | 'E' :: r2 =>
          firstSome (epCands r2) (fun ed =>
            firstSome (rangeCands ed.2) (fun r4 =>
              firstSome (sepCands r4) (fun r5 =>
                firstSome (absCands r5) (fun r6 =>
                  (titleMatch r6).map
                    (fun t => (digitsToNat sd.1, digitsToNat ed.1, t))))))
        | _ => none)
    else none
  | [] => none

/-- Well-formedness of an episode title written into a canonical stem:
non-empty, free of `[` and newline, not starting with a digit (which the
absolute-number block would consume) or whitespace, and not ending in
whitespace. -/
def GoodTitle (T : List Char) : Prop :=
  T ≠ [] ∧ (∀ c ∈ T, c ≠ '[' ∧ c ≠ '\n')
  ∧ (∀ c ∈ T.head?, c.isDigit = false ∧ isSpacePy c = false)
  ∧ (∀ c ∈ T.getLast?, isSpacePy c = false)

/-- Python `str.strip()` (ASCII whitespace). -/
def pyStrip (l : List Char) : List Char :=
  ((l.dropWhile isSpacePy).reverse.dropWhile isSpacePy).reverse

/-- `parse_episode_info`: leftmost `EP_REGEX` match, title stripped;
`none` when the pattern is absent. -/
def parse_episode_info (name : String) : Option (Nat × Nat × String) :=
  (reSearchFirst epMatchAt name.data).map
    (fun r => (r.1, r.2.1, String.mk (pyStrip r.2.2)))

/-! ## Language collection and ordering of `rip_renamer.py` -/

/-- Python string comparison (used by `sorted`): lexicographic by code
point, with a proper prefix ordered first. -/
def charListLe : List Char → List Char → Bool
  | [], _ => true
  | _ :: _, [] => false
  | a :: as, b :: bs =>
    if a.toNat < b.toNat then true
    else if b.toNat < a.toNat then false
    else charListLe as bs

def strLe (a b : String) : Bool :=
  charListLe a.data b.data

def strLeRel (a b : String) : Prop :=
  strLe a b = true

instance : DecidableRel strLeRel :=
  fun a b => inferInstanceAs (Decidable (strLe a b = true))

/-- `lang_map` of `detect_metadata_from_file`. -/
def lang_map : List (String × String) :=
  [("ja", "JA"), ("jpn", "JA"), ("japanese", "JA"),
   ("en", "EN"), ("eng", "EN"), ("english", "EN"),
   ("zh", "ZH"), ("chi", "ZH"), ("chinese", "ZH"),
   ("ko", "KO"), ("kor", "KO"), ("korean", "KO"),
   ("fr", "FR"), ("fre", "FR"), ("french", "FR"),
   ("de", "DE"), ("ger", "DE"), ("german", "DE"),
   ("es", "ES"), ("spa", "ES"), ("spanish", "ES"),
   ("it", "IT"), ("ita", "IT"), ("italian", "IT"),
   ("pt", "PT"), ("por", "PT"), ("portuguese", "PT"),
   ("ru", "RU"), ("rus", "RU"), ("russian", "RU")]

/-- Python `set.add`: sets modelled as duplicate-free lists. -/
def addLang (seen : List String) (code : String) : List String :=
  if code ∈ seen then seen else seen ++ [code]

/-- One loop step of the `seen_langs` collection: look the lowercased
`Language` field up in `lang_map` and add the mapped code to the set. -/
def collectStep (seen : List String) (l : String) : List String :=
  match lang_map.find? (fun kv => kv.1 == strLower l) with
  | some kv => addLang seen kv.2
  | none => seen

/-- The `seen_langs` set built over the audio tracks' `Language` fields. -/
def collectLangs (raw : List String) : List String :=
  raw.foldl collectStep []

/-- Python `sorted` on strings. -/
def sortStrings (l : List String) : List String :=
  l.insertionSort strLeRel

/-- The ordering step shared by `detect_metadata_from_file` (lines 525-534)
and the batch combine (lines 1966-1975): `JA` first if present, then `EN`,
then the rest sorted. -/
def orderLangs (seen0 : List String) : List String :=
  let p1 := if "JA" ∈ seen0 then (["JA"], seen0.erase "JA") else ([], seen0)
  let p2 := if "EN" ∈ p1.2 then (p1.1 ++ ["EN"], p1.2.erase "EN") else p1
  p2.1 ++ sortStrings p2.2

/-- The per-file `languages` value computed by `detect_metadata_from_file`
when audio tracks are present, from their raw `Language` fields. -/
def detect_file_languages (raw : List String) : List String :=
  let ordered := orderLangs (collectLangs raw)
  if ordered.isEmpty then ["JA"] else ordered

/-- The combined language list built across batch samples (rip_renamer
lines 1953-1975): the union of the samples' language lists; `none` when
the union is empty (the code then leaves the first sample's list as is). -/
def combined_languages (sampleLangs : List (List String)) : Option (List String) :=
  let all := sampleLangs.foldl (fun acc l => l.foldl addLang acc) []
  if all.isEmpty then none else some (orderLangs all)

/-- The elements of a languages list other than `JA` and `EN`. -/
def restOf (l : List String) : List String :=
  l.filter (fun x => !(x == "JA") && !(x == "EN"))

/-- The ordering invariant claimed of every produced languages list:
`JA` first when present, then `EN` when present, then exactly the
remaining elements in sorted order. -/
def langListOrdered (l : List String) : Prop :=
  l = (if "JA" ∈ l then ["JA"] else []) ++ (if "EN" ∈ l then ["EN"] else []) ++ restOf l
  ∧ List.Sorted strLeRel (restOf l)

/-! # Supporting lemmas -/

lemma natDigitsGo_irrel : ∀ f g n, n < f → n < g → natDigitsGo f n = natDigitsGo g n := by
  intro f
  induction f with
  | zero => intro g n h1 _; exact absurd h1 (by omega)
  | succ f ih =>
    intro g n h1 h2
    cases g with
    | zero => exact absurd h2 (by omega)
    | succ g =>
      by_cases h : n < 10
      · simp [natDigitsGo, h]
      · simp only [natDigitsGo, if_neg h]
        rw [ih g (n / 10) (by omega) (by omega)]

lemma natDigits_lt10 (n : Nat) (h : n < 10) : natDigits n = [Char.ofNat (48 + n)] := by
  unfold natDigits
  simp [natDigitsGo, h]

lemma natDigits_ge10 (n : Nat) (h : 10 ≤ n) :
    natDigits n = natDigits (n / 10) ++ [Char.ofNat (48 + n % 10)] := by
  unfold natDigits
  have h1 : natDigitsGo (n + 1) n = natDigitsGo n (n / 10) ++ [Char.ofNat (48 + n % 10)] := by
    simp only [natDigitsGo, if_neg (by omega : ¬ n < 10)]
  rw [h1, natDigitsGo_irrel n (n / 10 + 1) (n / 10) (by omega) (by omega)]

lemma natDigits_len1 (n : Nat) (h : n < 10) : (natDigits n).length = 1 := by
  rw [natDigits_lt10 n h]; rfl

lemma natDigits_len2 (n : Nat) (h1 : 10 ≤ n) (h2 : n ≤ 99) : (natDigits n).length = 2 := by
  rw [natDigits_ge10 n h1]
  simp [natDigits_len1 (n / 10) (by omega)]

lemma natDigits_len3 (n : Nat) (h1 : 100 ≤ n) (h2 : n ≤ 999) : (natDigits n).length = 3 := by
  rw [natDigits_ge10 n (by omega)]
  simp [natDigits_len2 (n / 10) (by omega) (by omega)]

lemma padNum_length (w n : Nat) : (padNum w n).length = max w (natDigits n).length := by
  unfold padNum
  simp [String.length, List.length_append, List.length_replicate]
  omega

/-! # Claims -/

/-- C2 (amended): the episode field of both the filename tag
(`build_dest_filename`) and the log-facing tag (`process_seasons`) is the
same zero-padded rendering: exactly 2 digits for 1 ≤ n ≤ 99, exactly 3
digits for 100 ≤ n ≤ 999 (for n ≥ 1000 Python padding never truncates, so
the natural digit count is used); the widening transition is exactly at
100, and filename and log tags are widened identically for every n. -/
theorem claim_C2 (series_slug : String) (season n : Nat) (h1 : 1 ≤ n) :
    (n ≤ 99 → (padNum (dest_ep_width n) n).length = 2)
    ∧ (100 ≤ n → n ≤ 999 → (padNum (dest_ep_width n) n).length = 3)
    ∧ dest_ep_tag series_slug season n
        = series_slug ++ ".S" ++ padNum 2 season ++ "E" ++ padNum (dest_ep_width n) n
    ∧ log_ep_tag season n = "S" ++ padNum 2 season ++ "E" ++ padNum (log_ep_width n) n
    ∧ padNum (dest_ep_width n) n = padNum (log_ep_width n) n := by
  refine ⟨?_, ?_, rfl, rfl, rfl⟩
  · intro h2
    have hw : dest_ep_width n = 2 := by unfold dest_ep_width; rw [if_neg (by omega)]
    rw [hw, padNum_length]
    rcases Nat.lt_or_ge n 10 with h | h
    · rw [natDigits_len1 n h]; omega
    · rw [natDigits_len2 n h h2]; omega
  · intro h2 h3
    have hw : dest_ep_width n = 3 := by unfold dest_ep_width; rw [if_pos (by omega)]
    rw [hw, padNum_length, natDigits_len3 n h2 h3]; omega

/-- C2 witness: the boundary instances, episode 99 renders with 2 digits
and episode 100 with 3. -/
theorem claim_C2_witness :
    (1 ≤ 99 ∧ (padNum (dest_ep_width 99) 99).length = 2)
    ∧ (1 ≤ 100 ∧ (padNum (dest_ep_width 100) 100).length = 3) :=
  ⟨⟨by decide, (claim_C2 "X" 1 99 (by decide)).1 (by decide)⟩,
   ⟨by decide, (claim_C2 "X" 1 100 (by decide)).2.1 (by decide) (by decide)⟩⟩

/-- C2 counterexample: at episode 1000 the tag renders with 4 digits, not
exactly 3, refuting "exactly 3 digits whenever n ≥ 100" as stated. -/
theorem claim_C2_counterexample :
    log_ep_tag 1 1000 = "S01E1000" ∧ (padNum (log_ep_width 1000) 1000).length = 4 := by
  exact ⟨rfl, rfl⟩

/-- C3: `detect_audio` appends the Atmos `A` suffix only when the first
matching codec-table pattern is Atmos-capable: a DTS match with an `Atmos`
substring stays `DTS5.1`, while TrueHD becomes `TrueHDA7.1`. -/
theorem claim_C3 :
    detect_audio "DTS 5.1 Atmos" = "DTS5.1"
    ∧ detect_audio "TrueHD 7.1 Atmos" = "TrueHDA7.1" := by
  exact ⟨rfl, rfl⟩

/-- C4: `detect_season_metadata` returns exactly the first sample's record
for any non-empty batch — the result is independent of the later samples,
a mismatch at most sets the warning flag — and the fixed fallback record
for an empty batch. -/
theorem claim_C4 (file_metas : List SeasonMeta) :
    (∀ m rest, file_metas = m :: rest → (detect_season_metadata file_metas).1 = m)
    ∧ (file_metas = [] → detect_season_metadata file_metas = (FALLBACK_META, false)) := by
  constructor
  · rintro m rest rfl
    rfl
  · rintro rfl
    rfl

/-- C4 witness: a two-sample batch whose second sample differs still
returns the first sample (and records the warning). -/
theorem claim_C4_witness :
    (detect_season_metadata [FALLBACK_META,
        { resolution := "720p", source := "BluRay", audio := "TrueHD",
          codec := "H.264", remux := true }]).1 = FALLBACK_META
    ∧ (detect_season_metadata [FALLBACK_META,
        { resolution := "720p", source := "BluRay", audio := "TrueHD",
          codec := "H.264", remux := true }]).2 = true :=
  ⟨(claim_C4 _).1 FALLBACK_META _ rfl, by decide⟩

lemma joinDots_foldl_init (l : List String) :
    ∀ x y, l.foldl (fun acc p => acc ++ "." ++ p) (x ++ y)
      = x ++ l.foldl (fun acc p => acc ++ "." ++ p) y := by
  induction l with
  | nil => intro x y; rfl
  | cons a l ih =>
    intro x y
    simp only [List.foldl_cons]
    rw [String.append_assoc x y, String.append_assoc x (y ++ ".") a, ih]

lemma joinDots_cons (a b : String) (rest : List String) :
    joinDots (a :: b :: rest) = a ++ "." ++ joinDots (b :: rest) := by
  simp only [joinDots, List.foldl_cons]
  rw [show a ++ "." ++ b = (a ++ ".") ++ b from by rw [String.append_assoc],
    joinDots_foldl_init, String.append_assoc]

/-- C1 (amended): when the episode title is empty or slugs to the empty
string, `build_btn_filename` omits the title segment entirely (the parts
list goes straight from the episode tag to the resolution), while
`build_dest_filename` always keeps the slug segment, producing consecutive
dots between the episode tag and the resolution token. -/
theorem claim_C1 :
    (∀ (series_slug : String) (season episode : Nat) (episode_title : String)
        (metadata : BtnMeta) (group : String),
      slugify_title episode_title = "" →
      build_btn_filename series_slug season episode episode_title metadata group
        = joinDots ([series_slug ++ ".S" ++ padNum 2 season ++ "E" ++ padNum 2 episode,
            metadata.resolution, metadata.source]
            ++ (if metadata.remux then ["Remux"] else [])
            ++ [removeSpaces metadata.audio, strip_bit_depth metadata.codec])
          ++ "-" ++ group ++ ".mkv")
    ∧ (∀ (series_slug group : String) (season episode : Nat) (title : String)
        (m : SeasonMeta),
      slugify_title title = "" →
      build_dest_filename series_slug group season episode title m
        = dest_ep_tag series_slug season episode ++ ".." ++
            joinDots ([m.resolution, m.source] ++ (if m.remux then ["Remux"] else []))
          ++ "." ++ m.audio ++ "." ++ m.codec ++ "-" ++ group ++ ".mkv") := by
  constructor
  · intro series_slug season episode episode_title metadata group h
    unfold build_btn_filename
    have hts : (if episode_title ≠ "" then slugify_title episode_title else "") = "" := by
      split
      · exact h
      · rfl
    rw [hts]
    simp
  · intro series_slug group season episode title m h
    have key : joinDots ([dest_ep_tag series_slug season episode, "", m.resolution, m.source]
          ++ (if m.remux then ["Remux"] else []))
        = dest_ep_tag series_slug season episode ++ ".."
          ++ joinDots ([m.resolution, m.source] ++ (if m.remux then ["Remux"] else [])) := by
      show List.foldl (fun acc p => acc ++ "." ++ p)
          (dest_ep_tag series_slug season episode ++ "." ++ "")
          (m.resolution :: m.source :: (if m.remux then ["Remux"] else [])) = _
      rw [String.append_empty, List.foldl_cons,
        String.append_assoc (dest_ep_tag series_slug season episode) "." "."]
      show List.foldl (fun acc p => acc ++ "." ++ p)
          ((dest_ep_tag series_slug season episode ++ "..") ++ m.resolution)
          (m.source :: (if m.remux then ["Remux"] else [])) = _
      rw [joinDots_foldl_init (m.source :: (if m.remux then ["Remux"] else []))
        (dest_ep_tag series_slug season episode ++ "..") m.resolution]
      rfl
    unfold build_dest_filename
    rw [h]
    show joinDots ([dest_ep_tag series_slug season episode, "", m.resolution, m.source]
        ++ (if m.remux then ["Remux"] else [])) ++ "." ++ m.audio ++ "."
      ++ m.codec ++ "-" ++ group ++ ".mkv" = _
    rw [key]

/-- C1 counterexample: `build_dest_filename` with an empty title produces
an empty segment — consecutive dots between the episode tag and the
resolution — refuting the claim for that builder. -/
theorem claim_C1_counterexample :
    build_dest_filename "Show" "GRP" 1 2 ""
        { resolution := "1080p", source := "BluRay", audio := "TrueHD5.1",
          codec := "H.264", remux := true }
      = "Show.S01E02..1080p.BluRay.Remux.TrueHD5.1.H.264-GRP.mkv"
    ∧ containsStr (build_dest_filename "Show" "GRP" 1 2 ""
        { resolution := "1080p", source := "BluRay", audio := "TrueHD5.1",
          codec := "H.264", remux := true }) ".." = true := by
  exact ⟨rfl, rfl⟩

/-- C1 witness: a title slugging to the empty string, with both builders
evaluated at it through the amended theorem. -/
theorem claim_C1_witness :
    slugify_title "???" = ""
    ∧ build_btn_filename "Show" 1 2 "???"
        { resolution := "1080p", source := "BluRay", remux := true,
          audio := "FLAC 2.0", codec := "H.264 8bit" } "GRP"
      = joinDots (["Show" ++ ".S" ++ padNum 2 1 ++ "E" ++ padNum 2 2, "1080p", "BluRay"]
          ++ ["Remux"] ++ [removeSpaces "FLAC 2.0", strip_bit_depth "H.264 8bit"])
        ++ "-" ++ "GRP" ++ ".mkv"
    ∧ build_dest_filename "Show" "GRP" 1 2 "???"
        { resolution := "1080p", source := "BluRay", audio := "TrueHD5.1",
          codec := "H.264", remux := true }
      = dest_ep_tag "Show" 1 2 ++ ".." ++ joinDots (["1080p", "BluRay"] ++ ["Remux"])
        ++ "." ++ "TrueHD5.1" ++ "." ++ "H.264" ++ "-" ++ "GRP" ++ ".mkv" :=
  ⟨by decide,
   claim_C1.1 "Show" 1 2 "???"
     { resolution := "1080p", source := "BluRay", remux := true,
       audio := "FLAC 2.0", codec := "H.264 8bit" } "GRP" (by decide),
   claim_C1.2 "Show" "GRP" 1 2 "???"
     { resolution := "1080p", source := "BluRay", audio := "TrueHD5.1",
       codec := "H.264", remux := true } (by decide)⟩

lemma mk_ne_empty (l : List Char) (h : l ≠ []) : String.mk l ≠ "" := by
  intro he
  exact h (congrArg String.data he)

lemma append_ne_empty_left (a b : String) (h : a ≠ "") : a ++ b ≠ "" := by
  intro he
  apply h
  have hd := congrArg String.data he
  rw [String.data_append] at hd
  exact String.ext (List.append_eq_nil.mp hd).1

lemma reSearchFirst_eq_some {α : Type} (f : List Char → Option α) :
    ∀ s v, reSearchFirst f s = some v → ∃ t, f t = some v := by
  intro s
  induction s with
  | nil => intro v h; exact ⟨[], h⟩
  | cons c t ih =>
    intro v h
    rw [reSearchFirst] at h
    cases hf : f (c :: t) with
    | some w => rw [hf] at h; exact ⟨c :: t, hf.trans h⟩
    | none => rw [hf] at h; exact ih v h

lemma matchRes3_ne_nil (s m : List Char) (h : matchRes3 s = some m) : m ≠ [] := by
  unfold matchRes3 at h
  split at h
  · split at h
    · injection h with h2
      subst h2
      simp
    · cases h
  · cases h

lemma matchResAt_ne_nil (s m : List Char) (h : matchResAt s = some m) : m ≠ [] := by
  unfold matchResAt at h
  split at h
  · split at h
    · injection h with h2
      subst h2
      simp
    · exact matchRes3_ne_nil s m h
  · exact matchRes3_ne_nil s m h

/-- C8: on every string input — including the empty string — the signal
extractors return a non-empty string (the documented fallback when no
signal is present): they are total functions of their input and never
signal failure.  `detect_remux` is Bool-valued and likewise total. -/
theorem claim_C8 (name : String) :
    detect_resolution name ≠ "" ∧ detect_source name ≠ "" ∧ detect_audio name ≠ ""
    ∧ detect_codec name ≠ ""
    ∧ (detect_remux name = true ∨ detect_remux name = false) := by
  refine ⟨?_, ?_, ?_, ?_, ?_⟩
  · unfold detect_resolution
    cases hr : reSearchFirst matchResAt name.data with
    | none => decide
    | some m =>
      obtain ⟨t, ht⟩ := reSearchFirst_eq_some matchResAt name.data m hr
      exact mk_ne_empty m (matchResAt_ne_nil t m ht)
  · simp only [detect_source]
    split
    · decide
    · split
      · decide
      · decide
  · unfold detect_audio
    cases hf : audio_codecs.find? (fun entry => reSearch entry.1 name) with
    | none =>
      show FALLBACK_META.audio ++ ((findChannels name.data).getD "2.0") ≠ ""
      exact append_ne_empty_left _ _ (by decide)
    | some e =>
      obtain ⟨re, label, cap⟩ := e
      have hmem := List.mem_of_find?_eq_some hf
      have hlabel : label ≠ "" := by
        simp only [audio_codecs, List.mem_cons, List.not_mem_nil, or_false,
          Prod.mk.injEq] at hmem
        rcases hmem with ⟨-, h2, -⟩ | ⟨-, h2, -⟩ | ⟨-, h2, -⟩ | ⟨-, h2, -⟩ | ⟨-, h2, -⟩
          | ⟨-, h2, -⟩ | ⟨-, h2, -⟩ | ⟨-, h2, -⟩ | ⟨-, h2, -⟩ | ⟨-, h2, -⟩ | ⟨-, h2, -⟩ <;>
          (subst h2; decide)
      show (if (reSearch (litCI "atmos") name && cap) = true
          then label ++ "A" ++ ((findChannels name.data).getD "2.0")
          else label ++ ((findChannels name.data).getD "2.0")) ≠ ""
      split
      · exact append_ne_empty_left _ _ (append_ne_empty_left _ _ hlabel)
      · exact append_ne_empty_left _ _ hlabel
  · simp only [detect_codec]
    split
    · decide
    · split
      · decide
      · decide
  · cases detect_remux name
    · exact Or.inr rfl
    · exact Or.inl rfl

lemma reSearchFirst_of_matchAt {α : Type} (f : List Char → Option α) (s : List Char)
    (v : α) (h : f s = some v) : reSearchFirst f s = some v := by
  cases s with
  | nil => exact h
  | cons c t => rw [reSearchFirst, h]

lemma reSearchFirst_append {α : Type} (f : List Char → Option α)
    (pre rest : List Char) (h : ∀ c ∈ pre, ∀ r, f (c :: r) = none) :
    reSearchFirst f (pre ++ rest) = reSearchFirst f rest := by
  induction pre with
  | nil => rfl
  | cons c p ih =>
    rw [List.cons_append, reSearchFirst, h c (List.mem_cons_self c p) (p ++ rest)]
    exact ih (fun d hd r => h d (List.mem_cons_of_mem c hd) r)

lemma reSearchFirst_none {α : Type} (f : List Char → Option α)
    (l : List Char) (h : ∀ c ∈ l, ∀ r, f (c :: r) = none) (hnil : f [] = none) :
    reSearchFirst f l = none := by
  induction l with
  | nil => exact hnil
  | cons c p ih =>
    rw [reSearchFirst, h c (List.mem_cons_self c p) p]
    exact ih (fun d hd r => h d (List.mem_cons_of_mem c hd) r)

lemma matchQualAt_not_bracket (c : Char) (r : List Char) (h : c ≠ '[') :
    matchQualAt (c :: r) = none := by
  simp [matchQualAt, h]

lemma matchQual_block (tail : List Char) :
    matchQualAt ("[Bluray-1080p Remux]".data ++ tail) = some ("Bluray", "1080p", true) := rfl

/-- C5 (amended): the bracket-derived triple comes from the leftmost
matching quality block: whenever no `[` occurs before the block, a name
containing `[Bluray-1080p Remux]` yields `("BluRay", "1080p", true)` no
matter what follows (and no matter what loose keywords like `web` the
prefix contains); and when no bracket block matches anywhere, the result
is exactly the loose detectors' triple. -/
theorem claim_C5 :
    (∀ p s : String, (∀ c ∈ p.data, c ≠ '[') →
      detect_source_and_resolution (p ++ "[Bluray-1080p Remux]" ++ s)
        = ("BluRay", "1080p", true))
    ∧ (∀ name : String, reSearchFirst matchQualAt name.data = none →
      detect_source_and_resolution name
        = (detect_source name, detect_resolution name, detect_remux name)) := by
  constructor
  · intro p s hp
    unfold detect_source_and_resolution
    have hd : (p ++ "[Bluray-1080p Remux]" ++ s).data
        = p.data ++ ("[Bluray-1080p Remux]".data ++ s.data) := by
      rw [String.data_append, String.data_append, List.append_assoc]
    rw [hd, reSearchFirst_append matchQualAt p.data _
        (fun c hc r => matchQualAt_not_bracket c r (hp c hc)),
      reSearchFirst_of_matchAt matchQualAt _ _ (matchQual_block s.data)]
    rfl
  · intro name h
    unfold detect_source_and_resolution
    rw [h]

/-- C5 counterexample: a name that does contain `[Bluray-1080p Remux]`
but whose leftmost matching bracket block is `[HDTV-720p]` returns the
HDTV triple, refuting the claim's universal reading. -/
theorem claim_C5_counterexample :
    containsStr "[HDTV-720p] [Bluray-1080p Remux]" "[Bluray-1080p Remux]" = true
    ∧ detect_source_and_resolution "[HDTV-720p] [Bluray-1080p Remux]"
        ≠ ("BluRay", "1080p", true)
    ∧ detect_source_and_resolution "[HDTV-720p] [Bluray-1080p Remux]"
        = ("HDTV", "720p", false) := by
  refine ⟨rfl, ?_, rfl⟩
  decide

/-- C5 witness: a `web`-bearing prefix with no bracket still loses to the
quality block, and a blockless name falls back to the loose detectors. -/
theorem claim_C5_witness :
    ((∀ c ∈ ("Show web " : String).data, c ≠ '[')
      ∧ detect_source_and_resolution ("Show web " ++ "[Bluray-1080p Remux]" ++ ".mkv")
        = ("BluRay", "1080p", true))
    ∧ (reSearchFirst matchQualAt ("Show web 1080p" : String).data = none
      ∧ detect_source_and_resolution "Show web 1080p"
        = (detect_source "Show web 1080p", detect_resolution "Show web 1080p",
            detect_remux "Show web 1080p")) :=
  ⟨⟨by decide, claim_C5.1 "Show web " ".mkv" (by decide)⟩,
   ⟨by decide, claim_C5.2 "Show web 1080p" (by decide)⟩⟩

lemma charListLe_total : ∀ a b, charListLe a b = true ∨ charListLe b a = true := by
  intro a
  induction a with
  | nil => intro b; exact Or.inl rfl
  | cons x xs ih =>
    intro b
    cases b with
    | nil => exact Or.inr rfl
    | cons y ys =>
      by_cases h1 : x.toNat < y.toNat
      · left; simp [charListLe, h1]
      · by_cases h2 : y.toNat < x.toNat
        · right; simp [charListLe, h2]
        · have := ih ys
          simp only [charListLe, if_neg h1, if_neg h2]
          rcases this with h | h
          · exact Or.inl h
          · right; simp [charListLe, if_neg h2, if_neg h1, h]

lemma charListLe_trans :
    ∀ a b c, charListLe a b = true → charListLe b c = true → charListLe a c = true := by
  intro a
  induction a with
  | nil => intro b c _ _; rfl
  | cons x xs ih =>
    intro b c h1 h2
    cases b with
    | nil => exact absurd h1 (by simp [charListLe])
    | cons y ys =>
      cases c with
      | nil => exact absurd h2 (by simp [charListLe])
      | cons z zs =>
        have hyx : ¬ y.toNat < x.toNat → True := fun _ => trivial
        by_cases hxy : x.toNat < y.toNat
        · have hzy : ¬ z.toNat < y.toNat := by
            intro hz
            simp [charListLe, if_neg (by omega : ¬ y.toNat < z.toNat), hz] at h2
          simp [charListLe, if_pos (by omega : x.toNat < z.toNat)]
        · have hyx2 : ¬ y.toNat < x.toNat := by
            intro hy
            simp [charListLe, if_neg hxy, hy] at h1
          have hxey : x.toNat = y.toNat := by omega
          by_cases hyz : y.toNat < z.toNat
          · simp [charListLe, if_pos (by omega : x.toNat < z.toNat)]
          · have hzy2 : ¬ z.toNat < y.toNat := by
              intro hz
              simp [charListLe, if_neg hyz, hz] at h2
            simp only [charListLe, if_neg hxy, if_neg hyx2] at h1
            simp only [charListLe, if_neg hyz, if_neg hzy2] at h2
            simp only [charListLe, if_neg (by omega : ¬ x.toNat < z.toNat),
              if_neg (by omega : ¬ z.toNat < x.toNat)]
            exact ih ys zs h1 h2

instance : IsTotal String strLeRel :=
  ⟨fun a b => charListLe_total a.data b.data⟩

instance : IsTrans String strLeRel :=
  ⟨fun a b c => charListLe_trans a.data b.data c.data⟩

lemma addLang_nodup (seen : List String) (c : String) (h : seen.Nodup) :
    (addLang seen c).Nodup := by
  unfold addLang
  split
  · exact h
  · rename_i hc
    have : List.Disjoint seen [c] := by
      intro x hx hxc
      simp only [List.mem_singleton] at hxc
      exact hc (hxc ▸ hx)
    exact List.Nodup.append h (by simp) this

lemma addLang_mem (seen : List String) (c x : String) :
    x ∈ addLang seen c ↔ x ∈ seen ∨ x = c := by
  unfold addLang
  split
  · rename_i hc
    constructor
    · exact Or.inl
    · rintro (h | rfl)
      · exact h
      · exact hc
  · simp [List.mem_append]

lemma lang_map_snd_len : ∀ kv ∈ lang_map, (kv.2).length = 2 := by decide

lemma collectStep_nodup (seen : List String) (l : String) (h : seen.Nodup) :
    (collectStep seen l).Nodup := by
  unfold collectStep
  cases lang_map.find? (fun kv => kv.1 == strLower l) with
  | some kv => exact addLang_nodup seen kv.2 h
  | none => exact h

lemma collectStep_mem (seen : List String) (l x : String) (h : x ∈ collectStep seen l) :
    x ∈ seen ∨ x.length = 2 := by
  unfold collectStep at h
  cases hf : lang_map.find? (fun kv => kv.1 == strLower l) with
  | some kv =>
    rw [hf] at h
    rcases (addLang_mem seen kv.2 x).mp h with h2 | rfl
    · exact Or.inl h2
    · exact Or.inr (lang_map_snd_len kv (List.mem_of_find?_eq_some hf))
  | none =>
    rw [hf] at h
    exact Or.inl h

lemma foldl_collectStep_nodup :
    ∀ raw seen, seen.Nodup → (List.foldl collectStep seen raw).Nodup := by
  intro raw
  induction raw with
  | nil => intro seen h; exact h
  | cons r rest ih => intro seen h; exact ih _ (collectStep_nodup seen r h)

lemma foldl_collectStep_mem :
    ∀ raw seen x, x ∈ List.foldl collectStep seen raw → x ∈ seen ∨ x.length = 2 := by
  intro raw
  induction raw with
  | nil => intro seen x h; exact Or.inl h
  | cons r rest ih =>
    intro seen x h
    rcases ih _ x h with h2 | h2
    · exact collectStep_mem seen r x h2
    · exact Or.inr h2

lemma collectLangs_nodup (raw : List String) : (collectLangs raw).Nodup :=
  foldl_collectStep_nodup raw [] List.nodup_nil

lemma collectLangs_len (raw : List String) (x : String) (h : x ∈ collectLangs raw) :
    x.length = 2 := by
  rcases foldl_collectStep_mem raw [] x h with h2 | h2
  · cases h2
  · exact h2

lemma ordered_parts (pre s2 : List String)
    (hpre : pre = [] ∨ pre = ["JA"] ∨ pre = ["EN"] ∨ pre = ["JA", "EN"])
    (h2 : s2.Nodup) (hja : "JA" ∉ s2) (hen : "EN" ∉ s2) :
    (pre ++ sortStrings s2).Nodup ∧ langListOrdered (pre ++ sortStrings s2) := by
  have hperm : List.Perm (sortStrings s2) s2 := List.perm_insertionSort strLeRel s2
  have hsnodup : (sortStrings s2).Nodup := hperm.nodup_iff.mpr h2
  have hjas : "JA" ∉ sortStrings s2 := fun h => hja (hperm.mem_iff.mp h)
  have hens : "EN" ∉ sortStrings s2 := fun h => hen (hperm.mem_iff.mp h)
  have hsort : List.Sorted strLeRel (sortStrings s2) :=
    List.sorted_insertionSort strLeRel s2
  have hfilter : restOf (sortStrings s2) = sortStrings s2 := by
    apply List.filter_eq_self.mpr
    intro x hx
    have hxja : x ≠ "JA" := fun he => hjas (he ▸ hx)
    have hxen : x ≠ "EN" := fun he => hens (he ▸ hx)
    simp [hxja, hxen]
  have hres : ∀ pre0 : List String, restOf pre0 = [] →
      restOf (pre0 ++ sortStrings s2) = sortStrings s2 := by
    intro pre0 h0
    rw [show restOf (pre0 ++ sortStrings s2) = restOf pre0 ++ restOf (sortStrings s2)
      from List.filter_append _ _, h0, hfilter, List.nil_append]
  rcases hpre with rfl | rfl | rfl | rfl
  · refine ⟨by simpa using hsnodup, ?_, ?_⟩
    · simp only [List.nil_append]
      rw [if_neg hjas, if_neg hens, hfilter]
      simp
    · simp only [List.nil_append]
      rw [hfilter]
      exact hsort
  · have hdisj : List.Disjoint ["JA"] (sortStrings s2) := by
      intro x hx hx2
      have hxe : x = "JA" := by simpa using hx
      exact hjas (hxe ▸ hx2)
    refine ⟨List.Nodup.append (by simp) hsnodup hdisj, ?_, ?_⟩
    · have hjam : "JA" ∈ ["JA"] ++ sortStrings s2 := by simp
      have henm : "EN" ∉ ["JA"] ++ sortStrings s2 := by
        simp only [List.mem_append]
        rintro (h | h)
        · have : "EN" = "JA" := by simpa using h
          exact absurd this (by decide)
        · exact hens h
      rw [if_pos hjam, if_neg henm, hres ["JA"] rfl]
      simp
    · rw [hres ["JA"] rfl]
      exact hsort
  · have hdisj : List.Disjoint ["EN"] (sortStrings s2) := by
      intro x hx hx2
      have hxe : x = "EN" := by simpa using hx
      exact hens (hxe ▸ hx2)
    refine ⟨List.Nodup.append (by simp) hsnodup hdisj, ?_, ?_⟩
    · have hjam : "JA" ∉ ["EN"] ++ sortStrings s2 := by
        simp only [List.mem_append]
        rintro (h | h)
        · have : "JA" = "EN" := by simpa using h
          exact absurd this (by decide)
        · exact hjas h
      have henm : "EN" ∈ ["EN"] ++ sortStrings s2 := by simp
      rw [if_neg hjam, if_pos henm, hres ["EN"] rfl]
      simp
    · rw [hres ["EN"] rfl]
      exact hsort
  · have hdisj : List.Disjoint ["JA", "EN"] (sortStrings s2) := by
      intro x hx hx2
      have hxe : x = "JA" ∨ x = "EN" := by simpa using hx
      rcases hxe with rfl | rfl
      · exact hjas hx2
      · exact hens hx2
    refine ⟨List.Nodup.append (by decide) hsnodup hdisj, ?_, ?_⟩
    · have hjam : "JA" ∈ ["JA", "EN"] ++ sortStrings s2 := by simp
      have henm : "EN" ∈ ["JA", "EN"] ++ sortStrings s2 := by simp
      rw [if_pos hjam, if_pos henm, hres ["JA", "EN"] rfl]
      simp
    · rw [hres ["JA", "EN"] rfl]
      exact hsort

lemma orderLangs_spec (s : List String) (hs : s.Nodup) :
    (orderLangs s).Nodup ∧ langListOrdered (orderLangs s)
    ∧ ∀ x ∈ orderLangs s, x ∈ s := by
  unfold orderLangs
  by_cases hja : "JA" ∈ s
  · by_cases hen : "EN" ∈ s.erase "JA"
    · simp only [if_pos hja, if_pos hen]
      have hja2 : "JA" ∉ (s.erase "JA").erase "EN" :=
        fun h => hs.not_mem_erase (List.mem_of_mem_erase h)
      have hen2 : "EN" ∉ (s.erase "JA").erase "EN" := (hs.erase "JA").not_mem_erase
      have base := ordered_parts ["JA", "EN"] ((s.erase "JA").erase "EN")
        (Or.inr (Or.inr (Or.inr rfl))) ((hs.erase "JA").erase "EN") hja2 hen2
      refine ⟨base.1, base.2, ?_⟩
      intro x hx
      rcases List.mem_append.mp hx with hx | hx
      · have hxe : x = "JA" ∨ x = "EN" := by simpa using hx
        rcases hxe with rfl | rfl
        · exact hja
        · exact List.mem_of_mem_erase hen
      · have := (List.perm_insertionSort strLeRel _).mem_iff.mp hx
        exact List.mem_of_mem_erase (List.mem_of_mem_erase this)
    · simp only [if_pos hja, if_neg hen]
      have hja2 : "JA" ∉ s.erase "JA" := hs.not_mem_erase
      have base := ordered_parts ["JA"] (s.erase "JA") (Or.inr (Or.inl rfl))
        (hs.erase "JA") hja2 hen
      refine ⟨base.1, base.2, ?_⟩
      intro x hx
      rcases List.mem_append.mp hx with hx | hx
      · have hxe : x = "JA" := by simpa using hx
        exact hxe ▸ hja
      · exact List.mem_of_mem_erase ((List.perm_insertionSort strLeRel _).mem_iff.mp hx)
  · by_cases hen : "EN" ∈ s
    · simp only [if_neg hja, if_pos hen]
      have hja2 : "JA" ∉ s.erase "EN" := fun h => hja (List.mem_of_mem_erase h)
      have base := ordered_parts ["EN"] (s.erase "EN") (Or.inr (Or.inr (Or.inl rfl)))
        (hs.erase "EN") hja2 hs.not_mem_erase
      refine ⟨base.1, base.2, ?_⟩
      intro x hx
      rcases List.mem_append.mp hx with hx | hx
      · have hxe : x = "EN" := by simpa using hx
        exact hxe ▸ hen
      · exact List.mem_of_mem_erase ((List.perm_insertionSort strLeRel _).mem_iff.mp hx)
    · simp only [if_neg hja, if_neg hen]
      have base := ordered_parts [] s (Or.inl rfl) hs hja hen
      refine ⟨base.1, base.2, ?_⟩
      intro x hx
      rcases List.mem_append.mp hx with hx | hx
      · cases hx
      · exact (List.perm_insertionSort strLeRel _).mem_iff.mp hx

lemma foldl_addLang_nodup :
    ∀ (ls : List String) (acc : List String), acc.Nodup → (ls.foldl addLang acc).Nodup := by
  intro ls
  induction ls with
  | nil => intro acc h; exact h
  | cons a rest ih => intro acc h; exact ih _ (addLang_nodup acc a h)

lemma foldl_addLang_mem :
    ∀ (ls : List String) (acc : List String) (x : String),
      x ∈ ls.foldl addLang acc → x ∈ acc ∨ x ∈ ls := by
  intro ls
  induction ls with
  | nil => intro acc x h; exact Or.inl h
  | cons a rest ih =>
    intro acc x h
    rcases ih _ x h with h2 | h2
    · rcases (addLang_mem acc a x).mp h2 with h3 | h4
      · exact Or.inl h3
      · exact Or.inr (h4 ▸ List.mem_cons_self a rest)
    · exact Or.inr (List.mem_cons_of_mem a h2)

lemma foldl2_nodup :
    ∀ (samples : List (List String)) (acc : List String), acc.Nodup →
      (samples.foldl (fun acc l => l.foldl addLang acc) acc).Nodup := by
  intro samples
  induction samples with
  | nil => intro acc h; exact h
  | cons ls rest ih => intro acc h; exact ih _ (foldl_addLang_nodup ls acc h)

lemma foldl2_mem :
    ∀ (samples : List (List String)) (acc : List String) (x : String),
      x ∈ samples.foldl (fun acc l => l.foldl addLang acc) acc →
      x ∈ acc ∨ ∃ ls ∈ samples, x ∈ ls := by
  intro samples
  induction samples with
  | nil => intro acc x h; exact Or.inl h
  | cons ls rest ih =>
    intro acc x h
    rcases ih _ x h with h2 | ⟨ls2, hls2, hx2⟩
    · rcases foldl_addLang_mem ls acc x h2 with h3 | h3
      · exact Or.inl h3
      · exact Or.inr ⟨ls, List.mem_cons_self ls rest, h3⟩
    · exact Or.inr ⟨ls2, List.mem_cons_of_mem ls hls2, hx2⟩

/-- C7: every languages list the probe adapter produces — per file in
`detect_metadata_from_file` and the combined batch list — is
duplicate-free and ordered `JA` first when present, then `EN`, then the
remaining codes in sorted order; the per-file codes all come from
`lang_map` and are 2-letter, and the combined list keeps 2-letter codes
when its sample inputs are 2-letter. -/
theorem claim_C7 :
    (∀ raw : List String,
      (detect_file_languages raw).Nodup ∧ langListOrdered (detect_file_languages raw)
      ∧ ∀ x ∈ detect_file_languages raw, x.length = 2)
    ∧ (∀ (samples : List (List String)) (l : List String),
      combined_languages samples = some l →
      l.Nodup ∧ langListOrdered l
      ∧ ((∀ ls ∈ samples, ∀ x ∈ ls, x.length = 2) → ∀ x ∈ l, x.length = 2)) := by
  constructor
  · intro raw
    have hd : detect_file_languages raw
        = if (orderLangs (collectLangs raw)).isEmpty then ["JA"]
          else orderLangs (collectLangs raw) := rfl
    rw [hd]
    split
    · refine ⟨by decide, ⟨by decide, ?_⟩, by decide⟩
      show List.Sorted strLeRel (restOf ["JA"])
      rw [show restOf ["JA"] = [] from rfl]
      exact List.sorted_nil
    · have hspec := orderLangs_spec (collectLangs raw) (collectLangs_nodup raw)
      exact ⟨hspec.1, hspec.2.1, fun x hx =>
        collectLangs_len raw x (hspec.2.2 x hx)⟩
  · intro samples l hcomb
    have hc : combined_languages samples
        = if (samples.foldl (fun acc l => l.foldl addLang acc) []).isEmpty then none
          else some (orderLangs (samples.foldl (fun acc l => l.foldl addLang acc) [])) := rfl
    rw [hc] at hcomb
    split at hcomb
    · cases hcomb
    · injection hcomb with hl
      subst hl
      have hnodup : (samples.foldl (fun acc l => l.foldl addLang acc) []).Nodup :=
        foldl2_nodup samples [] List.nodup_nil
      have hspec := orderLangs_spec _ hnodup
      refine ⟨hspec.1, hspec.2.1, ?_⟩
      intro hlen x hx
      rcases foldl2_mem samples [] x (hspec.2.2 x hx) with h2 | ⟨ls, hls, hx2⟩
      · cases h2
      · exact hlen ls hls x hx2

/-- C7 witness: a concrete two-sample batch combined through the theorem. -/
theorem claim_C7_witness :
    combined_languages [["EN", "DE"], ["JA"]] = some ["JA", "EN", "DE"]
    ∧ (["JA", "EN", "DE"] : List String).Nodup
    ∧ langListOrdered ["JA", "EN", "DE"]
    ∧ ∀ x ∈ (["JA", "EN", "DE"] : List String), x.length = 2 :=
  ⟨by decide,
   (claim_C7.2 [["EN", "DE"], ["JA"]] ["JA", "EN", "DE"] (by decide)).1,
   (claim_C7.2 [["EN", "DE"], ["JA"]] ["JA", "EN", "DE"] (by decide)).2.1,
   (claim_C7.2 [["EN", "DE"], ["JA"]] ["JA", "EN", "DE"] (by decide)).2.2 (by decide)⟩

lemma alnum_ne_dot (c : Char) (h : isAlnumAscii c = true) : c ≠ '.' := by
  intro he
  subst he
  exact absurd h (by decide)

lemma subNonAlnum_chars : ∀ (l : List Char) (b : Bool), SlugChars (subNonAlnum b l) := by
  intro l
  induction l with
  | nil => intro b c hc; cases hc
  | cons x t ih =>
    intro b c hc
    by_cases hx : isAlnumAscii x
    · rw [show subNonAlnum b (x :: t) = x :: subNonAlnum false t from by
        simp [subNonAlnum, hx]] at hc
      rcases List.mem_cons.mp hc with rfl | hc2
      · exact Or.inl hx
      · exact ih false c hc2
    · cases b with
      | true =>
        rw [show subNonAlnum true (x :: t) = subNonAlnum true t from by
          simp [subNonAlnum, hx]] at hc
        exact ih true c hc
      | false =>
        rw [show subNonAlnum false (x :: t) = '.' :: subNonAlnum true t from by
          simp [subNonAlnum, hx]] at hc
        rcases List.mem_cons.mp hc with rfl | hc2
        · exact Or.inr rfl
        · exact ih true c hc2

lemma subNonAlnum_chain : ∀ l : List Char,
    NoTwoDots (subNonAlnum false l) ∧ NoTwoDots (subNonAlnum true l)
    ∧ HeadNotDot (subNonAlnum true l) := by
  intro l
  induction l with
  | nil => exact ⟨List.chain'_nil, List.chain'_nil, fun c hc => by cases hc⟩
  | cons x t ih =>
    obtain ⟨ih1, ih2, ih3⟩ := ih
    by_cases hx : isAlnumAscii x
    · have he : ∀ b : Bool, subNonAlnum b (x :: t) = x :: subNonAlnum false t := by
        intro b; simp [subNonAlnum, hx]
      have hchain : NoTwoDots (x :: subNonAlnum false t) :=
        List.chain'_cons'.mpr ⟨fun b _ hab => alnum_ne_dot x hx hab.1, ih1⟩
      refine ⟨he false ▸ hchain, he true ▸ hchain, ?_⟩
      rw [he true]
      intro c hc
      have hcx : x = c := by simpa using hc
      exact hcx ▸ alnum_ne_dot x hx
    · have hef : subNonAlnum false (x :: t) = '.' :: subNonAlnum true t := by
        simp [subNonAlnum, hx]
      have het : subNonAlnum true (x :: t) = subNonAlnum true t := by
        simp [subNonAlnum, hx]
      refine ⟨?_, het ▸ ih2, het ▸ ih3⟩
      rw [hef]
      exact List.chain'_cons'.mpr ⟨fun b hb hab => ih3 b hb hab.2, ih2⟩

lemma subNonAlnum_id : ∀ l : List Char, SlugChars l → NoTwoDots l →
    (subNonAlnum false l = l) ∧ (HeadNotDot l → subNonAlnum true l = l) := by
  intro l
  induction l with
  | nil => intro _ _; exact ⟨rfl, fun _ => rfl⟩
  | cons x t ih =>
    intro hcs hch
    obtain ⟨iha, ihb⟩ := ih (fun c hc => hcs c (List.mem_cons_of_mem x hc)) hch.tail
    constructor
    · by_cases hx : isAlnumAscii x
      · rw [show subNonAlnum false (x :: t) = x :: subNonAlnum false t from by
          simp [subNonAlnum, hx], iha]
      · have hxd : x = '.' := by
          rcases hcs x (List.mem_cons_self x t) with h | h
          · exact absurd h hx
          · exact h
        subst hxd
        rw [show subNonAlnum false ('.' :: t) = '.' :: subNonAlnum true t from by
          simp [subNonAlnum, show isAlnumAscii '.' = false from by decide]]
        congr 1
        apply ihb
        intro c hc hce
        exact (List.chain'_cons'.mp hch).1 c hc ⟨rfl, hce⟩
    · intro hh
      by_cases hx : isAlnumAscii x
      · rw [show subNonAlnum true (x :: t) = x :: subNonAlnum false t from by
          simp [subNonAlnum, hx], iha]
      · have hxd : x = '.' := by
          rcases hcs x (List.mem_cons_self x t) with h | h
          · exact absurd h hx
          · exact h
        exact absurd hxd (hh x rfl)

lemma collapseDots_id : ∀ l : List Char, NoTwoDots l →
    (collapseDots false l = l) ∧ (HeadNotDot l → collapseDots true l = l) := by
  intro l
  induction l with
  | nil => intro _; exact ⟨rfl, fun _ => rfl⟩
  | cons x t ih =>
    intro hch
    obtain ⟨iha, ihb⟩ := ih hch.tail
    constructor
    · by_cases hx : x = '.'
      · subst hx
        rw [show collapseDots false ('.' :: t) = '.' :: collapseDots true t from by
          simp [collapseDots]]
        congr 1
        apply ihb
        intro c hc hce
        exact (List.chain'_cons'.mp hch).1 c hc ⟨rfl, hce⟩
      · rw [show collapseDots false (x :: t) = x :: collapseDots false t from by
          simp [collapseDots, hx], iha]
    · intro hh
      have hx : x ≠ '.' := hh x rfl
      rw [show collapseDots true (x :: t) = x :: collapseDots false t from by
        simp [collapseDots, hx], iha]

lemma head?_dropWhile (p : Char → Bool) :
    ∀ (l : List Char) (c : Char), (l.dropWhile p).head? = some c → p c = false := by
  intro l
  induction l with
  | nil => intro c h; simp at h
  | cons x t ih =>
    intro c h
    by_cases hx : p x
    · rw [List.dropWhile_cons, if_pos hx] at h
      exact ih c h
    · rw [List.dropWhile_cons, if_neg hx] at h
      have : x = c := by simpa using h
      subst this
      exact Bool.eq_false_iff.mpr hx

lemma dropWhile_eq_self_of_head (p : Char → Bool) (l : List Char)
    (h : ∀ c ∈ l.head?, p c = false) : l.dropWhile p = l := by
  cases l with
  | nil => rfl
  | cons x t =>
    rw [List.dropWhile_cons, if_neg]
    rw [h x rfl]
    simp

lemma stripDots_mem (l : List Char) : ∀ c ∈ stripDots l, c ∈ l := by
  intro c hc
  unfold stripDots at hc
  rw [List.mem_reverse] at hc
  have h1 := (List.dropWhile_suffix (fun c => c == '.')).sublist.subset hc
  rw [List.mem_reverse] at h1
  exact (List.dropWhile_suffix (fun c => c == '.')).sublist.subset h1

lemma noTwoDots_reverse (l : List Char) (h : NoTwoDots l) : NoTwoDots l.reverse := by
  unfold NoTwoDots at h ⊢
  rw [List.chain'_reverse]
  exact h.imp (fun a b hab => fun hba => hab ⟨hba.2, hba.1⟩)

lemma stripDots_chain (l : List Char) (h : NoTwoDots l) : NoTwoDots (stripDots l) := by
  unfold stripDots
  apply noTwoDots_reverse
  exact (noTwoDots_reverse _ (h.suffix (List.dropWhile_suffix _))).suffix
    (List.dropWhile_suffix _)

lemma stripDots_head (l : List Char) : HeadNotDot (stripDots l) := by
  intro c hc
  unfold stripDots at hc
  rw [List.head?_reverse] at hc
  set Y := ((l.dropWhile (fun c => c == '.')).reverse.dropWhile (fun c => c == '.')) with hY
  have hYne : Y ≠ [] := by
    intro he
    rw [he] at hc
    cases hc
  obtain ⟨pre, hpre⟩ := List.dropWhile_suffix (l := (l.dropWhile (fun c => c == '.')).reverse)
    (fun c => c == '.')
  have h1 : Y.getLast? = ((l.dropWhile (fun c => c == '.')).reverse).getLast? := by
    conv_rhs => rw [← hpre]
    rw [List.getLast?_append_of_ne_nil pre hYne]
  rw [h1, List.getLast?_reverse] at hc
  have := head?_dropWhile (fun c => c == '.') l c hc
  simpa using this

lemma stripDots_last (l : List Char) : LastNotDot (stripDots l) := by
  intro c hc
  unfold stripDots at hc
  rw [List.getLast?_reverse] at hc
  have := head?_dropWhile (fun c => c == '.') (l.dropWhile (fun c => c == '.')).reverse c hc
  simpa using this

lemma stripDots_id (l : List Char) (hh : HeadNotDot l) (hl : LastNotDot l) :
    stripDots l = l := by
  unfold stripDots
  rw [dropWhile_eq_self_of_head _ l (fun c hc => by
    rw [show (c == '.') = false from by
      rw [beq_eq_false_iff_ne]
      exact hh c hc])]
  rw [dropWhile_eq_self_of_head _ l.reverse (fun c hc => by
    rw [show (c == '.') = false from by
      rw [beq_eq_false_iff_ne]
      exact hl c (by rwa [List.head?_reverse] at hc)])]
  exact List.reverse_reverse l

lemma filter_apos_id (l : List Char) (h : SlugChars l) :
    l.filter (fun c => c ≠ Char.ofNat 39) = l := by
  apply List.filter_eq_self.mpr
  intro c hc
  rcases h c hc with h2 | h2
  · have : c ≠ Char.ofNat 39 := by
      intro he
      subst he
      exact absurd h2 (by decide)
    simp [this]
  · subst h2
    decide

/-- C9: `slugify_title` is idempotent — slugging an already slugged title
is the identity, for every input string. -/
theorem claim_C9 (x : String) : slugify_title (slugify_title x) = slugify_title x := by
  have hchain1 := subNonAlnum_chain (x.data.filter (fun c => c ≠ Char.ofNat 39))
  have hcol : collapseDots false
      (subNonAlnum false (x.data.filter (fun c => c ≠ Char.ofNat 39)))
      = subNonAlnum false (x.data.filter (fun c => c ≠ Char.ofNat 39)) :=
    (collapseDots_id _ hchain1.1).1
  have hy : (slugify_title x).data
      = stripDots (subNonAlnum false (x.data.filter (fun c => c ≠ Char.ofNat 39)))
 := by
    show stripDots (collapseDots false
      (subNonAlnum false (x.data.filter (fun c => c ≠ Char.ofNat 39)))) = _
    rw [hcol]
  have hchars : SlugChars (slugify_title x).data := by
    rw [hy]
    intro c hc
    exact subNonAlnum_chars _ false c (stripDots_mem _ c hc)
  have hchain : NoTwoDots (slugify_title x).data := by
    rw [hy]
    exact stripDots_chain _ hchain1.1
  have hhead : HeadNotDot (slugify_title x).data := by
    rw [hy]
    exact stripDots_head _
  have hlast : LastNotDot (slugify_title x).data := by
    rw [hy]
    exact stripDots_last _
  show String.mk (stripDots (collapseDots false
    (subNonAlnum false ((slugify_title x).data.filter (fun c => c ≠ Char.ofNat 39))))) = _
  rw [filter_apos_id _ hchars, (subNonAlnum_id _ hchars hchain).1,
    (collapseDots_id _ hchain).1, stripDots_id _ hhead hlast]

lemma space_not_digit : (' ' : Char).isDigit = false := by decide

lemma dash_not_digit : ('-' : Char).isDigit = false := by decide

lemma digit_not_ws (c : Char) (h : c.isDigit = true) : isSpacePy c = false := by
  revert h
  unfold Char.isDigit isSpacePy
  intro h
  by_contra hw
  simp only [Bool.not_eq_false] at hw
  rcases Bool.or_eq_true_iff.mp hw with hw | hw
  · rcases Bool.or_eq_true_iff.mp hw with hw | hw
    · rcases Bool.or_eq_true_iff.mp hw with hw | hw
      · rcases Bool.or_eq_true_iff.mp hw with hw | hw
        · rcases Bool.or_eq_true_iff.mp hw with hw | hw
          · exact absurd h (by rw [show c = ' ' from by simpa using hw]; decide)
          · exact absurd h (by rw [show c = '\t' from by simpa using hw]; decide)
        · exact absurd h (by rw [show c = '\n' from by simpa using hw]; decide)
      · exact absurd h (by rw [show c = '\r' from by simpa using hw]; decide)
    · exact absurd h (by rw [show c = Char.ofNat 11 from by simpa using hw]; decide)
  · exact absurd h (by rw [show c = Char.ofNat 12 from by simpa using hw]; decide)

lemma firstSome_cons_of_some {α β : Type} (f : α → Option β) (a : α) (t : List α)
    (v : β) (h : f a = some v) : firstSome (a :: t) f = some v := by
  rw [firstSome, h]

lemma epMatchAt_not_S (c : Char) (r : List Char) (h : c ≠ 'S') :
    epMatchAt (c :: r) = none := by
  simp [epMatchAt, h]

lemma epMatchAt_unfold (s1 s2 : Char) (hs1 : s1.isDigit = true) (hs2 : s2.isDigit = true)
    (r2 : List Char) :
    epMatchAt ('S' :: s1 :: s2 :: 'E' :: r2)
      = firstSome (epCands r2) (fun ed =>
          firstSome (rangeCands ed.2) (fun r4 =>
            firstSome (sepCands r4) (fun r5 =>
              firstSome (absCands r5) (fun r6 =>
                (titleMatch r6).map
                  (fun t => (digitsToNat [s1, s2], digitsToNat ed.1, t)))))) := by
  have h1 : takeNDigits 2 (s1 :: s2 :: 'E' :: r2) = some ([s1, s2], 'E' :: r2) := by
    simp [takeNDigits, hs1, hs2]
  simp [epMatchAt, h1]

lemma epCands_two (e1 e2 c : Char) (r : List Char)
    (he1 : e1.isDigit = true) (he2 : e2.isDigit = true) (hc : c.isDigit = false) :
    epCands (e1 :: e2 :: c :: r) = [([e1, e2], c :: r)] := by
  simp [epCands, takeNDigits, he1, he2, hc]

lemma rangeCands_space (r : List Char) : rangeCands (' ' :: r) = [' ' :: r] := rfl

lemma rangeCands_range (f1 f2 : Char) (r : List Char)
    (hf1 : f1.isDigit = true) (hf2 : f2.isDigit = true) :
    rangeCands ('-' :: 'E' :: f1 :: f2 :: ' ' :: r)
      = [' ' :: r, '-' :: 'E' :: f1 :: f2 :: ' ' :: r] := by
  simp [rangeCands, takeNDigits, hf1, hf2, space_not_digit]

lemma clsStarRem_not (p : Char → Bool) (r : List Char)
    (hr : ∀ c ∈ r.head?, p c = false) : clsStarRem p r = [r] := by
  cases r with
  | nil => rfl
  | cons c t =>
    rw [clsStarRem, if_neg]
    rw [hr c rfl]
    simp

lemma sepCands_canonical (r : List Char) (hr : ∀ c ∈ r.head?, isSpacePy c = false) :
    sepCands (' ' :: '-' :: ' ' :: r) = [r, ' ' :: r] := by
  have h1 : clsStarRem isSpacePy (' ' :: '-' :: ' ' :: r)
      = ['-' :: ' ' :: r, ' ' :: '-' :: ' ' :: r] := by
    rw [clsStarRem, if_pos (by decide), clsStarRem, if_neg (by decide)]
    rfl
  have h2 : clsStarRem isSpacePy (' ' :: r) = [r, ' ' :: r] := by
    rw [clsStarRem, if_pos (by decide), clsStarRem_not isSpacePy r hr]
    rfl
  rw [sepCands, h1]
  simp [h2]

lemma clsPlusRem_not (p : Char → Bool) (s : List Char)
    (hs : ∀ c ∈ s.head?, p c = false) : clsPlusRem p s = [] := by
  cases s with
  | nil => rfl
  | cons c t =>
    rw [clsPlusRem, if_neg]
    rw [hs c rfl]
    simp

lemma clsStarRem_all_consume (p : Char → Bool) :
    ∀ (A : List Char) (x : Char) (r : List Char), (∀ c ∈ A, p c = true) → p x = false →
    ∃ junk, clsStarRem p (A ++ x :: r) = (x :: r) :: junk := by
  intro A
  induction A with
  | nil =>
    intro x r _ hx
    refine ⟨[], ?_⟩
    rw [List.nil_append]
    exact clsStarRem_not p (x :: r) (fun c hc => by
      have hcx : x = c := by simpa using hc
      exact hcx ▸ hx)
  | cons a A2 ih =>
    intro x r hA hx
    obtain ⟨junk, hj⟩ := ih x r (fun c hc => hA c (List.mem_cons_of_mem a hc)) hx
    refine ⟨junk ++ [a :: (A2 ++ x :: r)], ?_⟩
    rw [List.cons_append, clsStarRem, if_pos (hA a (List.mem_cons_self a A2)), hj]
    rfl

lemma clsPlusRem_consume (A : List Char) (x : Char) (r : List Char)
    (hne : A ≠ []) (hA : ∀ c ∈ A, c.isDigit = true) (hx : x.isDigit = false) :
    ∃ junk, clsPlusRem Char.isDigit (A ++ x :: r) = (x :: r) :: junk := by
  cases A with
  | nil => exact absurd rfl hne
  | cons a A2 =>
    rw [List.cons_append, clsPlusRem, if_pos (hA a (List.mem_cons_self a A2))]
    exact clsStarRem_all_consume Char.isDigit A2 x r
      (fun c hc => hA c (List.mem_cons_of_mem a hc)) hx

lemma absCands_skip (s : List Char) (hs : ∀ c ∈ s.head?, c.isDigit = false) :
    absCands s = [s] := by
  rw [absCands, clsPlusRem_not Char.isDigit s hs]
  rfl

lemma firstSome_absCands_skip {β : Type} (g : List Char → Option β) (s : List Char)
    (hs : ∀ c ∈ s.head?, c.isDigit = false) (v : β) (hg : g s = some v) :
    firstSome (absCands s) g = some v := by
  rw [absCands_skip s hs]
  exact firstSome_cons_of_some g s [] v hg

lemma absInner_flat_sep (r : List Char) (hr : ∀ c ∈ r.head?, isSpacePy c = false) :
    (absInnerCands (' ' :: '-' :: ' ' :: r)).flatMap sepCands = [r, ' ' :: r] := by
  rw [show absInnerCands (' ' :: '-' :: ' ' :: r) = [' ' :: '-' :: ' ' :: r] from rfl]
  simp [sepCands_canonical r hr]

lemma firstSome_absCands_consume1 {β : Type} (g : List Char → Option β)
    (A r : List Char) (hne : A ≠ []) (hA : ∀ c ∈ A, c.isDigit = true)
    (hr : ∀ c ∈ r.head?, isSpacePy c = false) (v : β) (hg : g r = some v) :
    firstSome (absCands (A ++ (' ' :: '-' :: ' ' :: r))) g = some v := by
  obtain ⟨j1, hj1⟩ := clsPlusRem_consume A ' ' ('-' :: ' ' :: r) hne hA space_not_digit
  rw [absCands, hj1, List.flatMap_cons, absInner_flat_sep r hr]
  simp only [List.cons_append, List.nil_append, List.append_assoc]
  exact firstSome_cons_of_some g r _ v hg

lemma firstSome_absCands_consume2 {β : Type} (g : List Char → Option β)
    (A1 A2 r : List Char) (hne1 : A1 ≠ []) (hA1 : ∀ c ∈ A1, c.isDigit = true)
    (hne2 : A2 ≠ []) (hA2 : ∀ c ∈ A2, c.isDigit = true)
    (hr : ∀ c ∈ r.head?, isSpacePy c = false) (v : β) (hg : g r = some v) :
    firstSome (absCands (A1 ++ '-' :: (A2 ++ (' ' :: '-' :: ' ' :: r)))) g = some v := by
  obtain ⟨j1, hj1⟩ := clsPlusRem_consume A1 '-' (A2 ++ (' ' :: '-' :: ' ' :: r))
    hne1 hA1 dash_not_digit
  obtain ⟨j2, hj2⟩ := clsPlusRem_consume A2 ' ' ('-' :: ' ' :: r) hne2 hA2 space_not_digit
  rw [absCands, hj1, List.flatMap_cons]
  rw [show absInnerCands ('-' :: (A2 ++ (' ' :: '-' :: ' ' :: r)))
      = clsPlusRem Char.isDigit (A2 ++ (' ' :: '-' :: ' ' :: r))
        ++ ['-' :: (A2 ++ (' ' :: '-' :: ' ' :: r))] from rfl, hj2]
  rw [List.cons_append, List.flatMap_cons, sepCands_canonical r hr]
  simp only [List.cons_append, List.nil_append, List.append_assoc]
  exact firstSome_cons_of_some g r _ v hg

lemma mem_of_getLast?_char : ∀ (l : List Char) (c : Char), l.getLast? = some c → c ∈ l := by
  intro l
  induction l with
  | nil => intro c h; simp at h
  | cons x t ih =>
    intro c h
    cases t with
    | nil =>
      have hxc : x = c := by simpa using h
      exact hxc ▸ List.mem_cons_self x []
    | cons y t2 =>
      rw [List.getLast?_cons_cons] at h
      exact List.mem_cons_of_mem x (ih c h)

lemma getLast?_ne_none (l : List Char) (h : l ≠ []) : ∃ c, l.getLast? = some c := by
  induction l with
  | nil => exact absurd rfl h
  | cons x t ih =>
    cases t with
    | nil => exact ⟨x, rfl⟩
    | cons y t2 =>
      obtain ⟨c, hc⟩ := ih (by simp)
      exact ⟨c, by rw [List.getLast?_cons_cons]; exact hc⟩

lemma dropWhile_append_not_all (p : Char → Bool) :
    ∀ (A B : List Char), (∃ c ∈ A, p c = false) →
    ∃ h t2, A.dropWhile p = h :: t2 ∧ (A ++ B).dropWhile p = h :: (t2 ++ B) ∧ h ∈ A := by
  intro A
  induction A with
  | nil =>
    rintro B ⟨c, hc, -⟩
    cases hc
  | cons a A2 ih =>
    intro B hex
    by_cases ha : p a
    · have hex2 : ∃ c ∈ A2, p c = false := by
        rcases hex with ⟨c, hc, hpc⟩
        rcases List.mem_cons.mp hc with rfl | hc2
        · rw [ha] at hpc; cases hpc
        · exact ⟨c, hc2, hpc⟩
      obtain ⟨h, t2, h1, h2, h3⟩ := ih B hex2
      exact ⟨h, t2, by rw [List.dropWhile_cons, if_pos ha]; exact h1,
        by rw [List.cons_append, List.dropWhile_cons, if_pos ha]; exact h2,
        List.mem_cons_of_mem a h3⟩
    · exact ⟨a, A2, by rw [List.dropWhile_cons, if_neg ha],
        by rw [List.cons_append, List.dropWhile_cons, if_neg ha], List.mem_cons_self a A2⟩

lemma tailOk_false_of (T2 Z : List Char) (hne : T2 ≠ [])
    (hlast : ∀ c ∈ T2.getLast?, isSpacePy c = false)
    (hbr : ∀ c ∈ T2, c ≠ '[') : tailOk (T2 ++ Z) = false := by
  have hexists : ∃ c ∈ T2, isSpacePy c = false := by
    obtain ⟨l, hl⟩ := getLast?_ne_none T2 hne
    exact ⟨l, mem_of_getLast?_char T2 l hl, hlast l hl⟩
  obtain ⟨h, t2, -, h2, h3⟩ := dropWhile_append_not_all isSpacePy T2 Z hexists
  rw [tailOk, h2]
  simp [hbr h h3]

lemma titleMatch_canonical : ∀ (T Z : List Char), T ≠ [] →
    (∀ c ∈ T, c ≠ '[' ∧ c ≠ '\n') →
    (∀ c ∈ T.getLast?, isSpacePy c = false) →
    tailOk Z = true → titleMatch (T ++ Z) = some T := by
  intro T
  induction T with
  | nil => intro Z h; exact absurd rfl h
  | cons t0 T2 ih =>
    intro Z _ hchars hlast hZ
    have ht0 : t0 ≠ '\n' := (hchars t0 (List.mem_cons_self t0 T2)).2
    cases T2 with
    | nil =>
      rw [List.cons_append, List.nil_append]
      simp [titleMatch, ht0, hZ]
    | cons t1 T3 =>
      have hne : (t1 :: T3) ≠ [] := by simp
      have hlast2 : ∀ c ∈ (t1 :: T3).getLast?, isSpacePy c = false := by
        intro c hc
        apply hlast
        rw [List.getLast?_cons_cons]
        exact hc
      have hTok : tailOk (t1 :: (T3 ++ Z)) = false := by
        rw [← List.cons_append]
        exact tailOk_false_of (t1 :: T3) Z hne hlast2
          (fun c hc => (hchars c (List.mem_cons_of_mem t0 hc)).1)
      rw [List.cons_append,
        show titleMatch (t0 :: ((t1 :: T3) ++ Z))
          = (titleMatch ((t1 :: T3) ++ Z)).map (fun m => t0 :: m) from by
            simp [titleMatch, ht0, hTok],
        ih Z hne (fun c hc => hchars c (List.mem_cons_of_mem t0 hc)) hlast2 hZ]
      rfl

lemma pyStrip_id (T : List Char) (hh : ∀ c ∈ T.head?, isSpacePy c = false)
    (hl : ∀ c ∈ T.getLast?, isSpacePy c = false) : pyStrip T = T := by
  unfold pyStrip
  rw [dropWhile_eq_self_of_head _ T hh,
    dropWhile_eq_self_of_head _ T.reverse (fun c hc =>
      hl c (by rwa [List.head?_reverse] at hc)),
    List.reverse_reverse]

lemma head?_append_left (A B : List Char) (hA : A ≠ []) : (A ++ B).head? = A.head? := by
  cases A with
  | nil => exact absurd rfl hA
  | cons a t => rfl

/-- The title-and-tail part: `firstSome` over the absolute-block
candidates against the lazy title matcher, for a body that is directly
`T ++ Z`. -/
lemma body_title_direct (T Z : List Char) (hT : GoodTitle T) (hZ : tailOk Z = true)
    {β : Type} (f : List Char → β) :
    firstSome (absCands (T ++ Z)) (fun r6 => (titleMatch r6).map f) = some (f T) := by
  obtain ⟨hne, hchars, hhead, hlast⟩ := hT
  apply firstSome_absCands_skip
  · rw [head?_append_left T Z hne]
    intro c hc
    exact (hhead c hc).1
  · rw [titleMatch_canonical T Z hne hchars hlast hZ]
    rfl

lemma epMatchAt_form1 (s1 s2 e1 e2 : Char)
    (hs1 : s1.isDigit = true) (hs2 : s2.isDigit = true)
    (he1 : e1.isDigit = true) (he2 : e2.isDigit = true)
    (T Z : List Char) (hT : GoodTitle T) (hZ : tailOk Z = true) :
    epMatchAt ('S' :: s1 :: s2 :: 'E' :: e1 :: e2 :: ' ' :: '-' :: ' ' :: (T ++ Z))
      = some (digitsToNat [s1, s2], digitsToNat [e1, e2], T) := by
  rw [epMatchAt_unfold s1 s2 hs1 hs2,
    epCands_two e1 e2 ' ' ('-' :: ' ' :: (T ++ Z)) he1 he2 space_not_digit]
  apply firstSome_cons_of_some
  rw [rangeCands_space]
  apply firstSome_cons_of_some
  rw [sepCands_canonical (T ++ Z) (by
    rw [head?_append_left T Z hT.1]
    intro c hc
    exact (hT.2.2.1 c hc).2)]
  apply firstSome_cons_of_some
  exact body_title_direct T Z hT hZ _

lemma epMatchAt_form2 (s1 s2 e1 e2 f1 f2 : Char)
    (hs1 : s1.isDigit = true) (hs2 : s2.isDigit = true)
    (he1 : e1.isDigit = true) (he2 : e2.isDigit = true)
    (hf1 : f1.isDigit = true) (hf2 : f2.isDigit = true)
    (T Z : List Char) (hT : GoodTitle T) (hZ : tailOk Z = true) :
    epMatchAt ('S' :: s1 :: s2 :: 'E' :: e1 :: e2 :: '-' :: 'E' :: f1 :: f2
        :: ' ' :: '-' :: ' ' :: (T ++ Z))
      = some (digitsToNat [s1, s2], digitsToNat [e1, e2], T) := by
  rw [epMatchAt_unfold s1 s2 hs1 hs2,
    epCands_two e1 e2 '-' ('E' :: f1 :: f2 :: ' ' :: '-' :: ' ' :: (T ++ Z))
      he1 he2 dash_not_digit]
  apply firstSome_cons_of_some
  rw [rangeCands_range f1 f2 ('-' :: ' ' :: (T ++ Z)) hf1 hf2]
  apply firstSome_cons_of_some
  rw [sepCands_canonical (T ++ Z) (by
    rw [head?_append_left T Z hT.1]
    intro c hc
    exact (hT.2.2.1 c hc).2)]
  apply firstSome_cons_of_some
  exact body_title_direct T Z hT hZ _

lemma epMatchAt_form3 (s1 s2 e1 e2 : Char)
    (hs1 : s1.isDigit = true) (hs2 : s2.isDigit = true)
    (he1 : e1.isDigit = true) (he2 : e2.isDigit = true)
    (A : List Char) (hAne : A ≠ []) (hA : ∀ c ∈ A, c.isDigit = true)
    (T Z : List Char) (hT : GoodTitle T) (hZ : tailOk Z = true) :
    epMatchAt ('S' :: s1 :: s2 :: 'E' :: e1 :: e2 :: ' ' :: '-' :: ' '
        :: (A ++ (' ' :: '-' :: ' ' :: (T ++ Z))))
      = some (digitsToNat [s1, s2], digitsToNat [e1, e2], T) := by
  have hAhead : ∀ c ∈ (A ++ (' ' :: '-' :: ' ' :: (T ++ Z))).head?, isSpacePy c = false := by
    rw [head?_append_left _ _ hAne]
    intro c hc
    rcases A with - | ⟨a, t⟩
    · exact absurd rfl hAne
    · have hca : a = c := by simpa using hc
      exact hca ▸ digit_not_ws a (hA a (List.mem_cons_self a t))
  rw [epMatchAt_unfold s1 s2 hs1 hs2,
    epCands_two e1 e2 ' ' _ he1 he2 space_not_digit]
  apply firstSome_cons_of_some
  rw [rangeCands_space]
  apply firstSome_cons_of_some
  rw [sepCands_canonical _ hAhead]
  apply firstSome_cons_of_some
  apply firstSome_absCands_consume1 _ A (T ++ Z) hAne hA (by
    rw [head?_append_left T Z hT.1]
    intro c hc
    exact (hT.2.2.1 c hc).2)
  rw [titleMatch_canonical T Z hT.1 hT.2.1 hT.2.2.2 hZ]
  rfl

lemma epMatchAt_form4 (s1 s2 e1 e2 f1 f2 : Char)
    (hs1 : s1.isDigit = true) (hs2 : s2.isDigit = true)
    (he1 : e1.isDigit = true) (he2 : e2.isDigit = true)
    (hf1 : f1.isDigit = true) (hf2 : f2.isDigit = true)
    (A1 A2 : List Char) (hAne1 : A1 ≠ []) (hA1 : ∀ c ∈ A1, c.isDigit = true)
    (hAne2 : A2 ≠ []) (hA2 : ∀ c ∈ A2, c.isDigit = true)
    (T Z : List Char) (hT : GoodTitle T) (hZ : tailOk Z = true) :
    epMatchAt ('S' :: s1 :: s2 :: 'E' :: e1 :: e2 :: '-' :: 'E' :: f1 :: f2
        :: ' ' :: '-' :: ' ' :: (A1 ++ '-' :: (A2 ++ (' ' :: '-' :: ' ' :: (T ++ Z)))))
      = some (digitsToNat [s1, s2], digitsToNat [e1, e2], T) := by
  have hAhead : ∀ c ∈ (A1 ++ '-' :: (A2 ++ (' ' :: '-' :: ' ' :: (T ++ Z)))).head?,
      isSpacePy c = false := by
    rw [head?_append_left _ _ hAne1]
    intro c hc
    rcases A1 with - | ⟨a, t⟩
    · exact absurd rfl hAne1
    · have hca : a = c := by simpa using hc
      exact hca ▸ digit_not_ws a (hA1 a (List.mem_cons_self a t))
  rw [epMatchAt_unfold s1 s2 hs1 hs2,
    epCands_two e1 e2 '-' _ he1 he2 dash_not_digit]
  apply firstSome_cons_of_some
  rw [rangeCands_range f1 f2 _ hf1 hf2]
  apply firstSome_cons_of_some
  rw [sepCands_canonical _ hAhead]
  apply firstSome_cons_of_some
  apply firstSome_absCands_consume2 _ A1 A2 (T ++ Z) hAne1 hA1 hAne2 hA2 (by
    rw [head?_append_left T Z hT.1]
    intro c hc
    exact (hT.2.2.1 c hc).2)
  rw [titleMatch_canonical T Z hT.1 hT.2.1 hT.2.2.2 hZ]
  rfl

lemma digit_ne_S (c : Char) (h : c.isDigit = true) : c ≠ 'S' := by
  intro he
  subst he
  exact absurd h (by decide)

lemma E_not_digit : ('E' : Char).isDigit = false := by decide

lemma parse_of_form (P stem : List Char) (hP : ∀ c ∈ P, c ≠ 'S')
    (sea ep : Nat) (T : List Char)
    (hm : epMatchAt stem = some (sea, ep, T))
    (hh : ∀ c ∈ T.head?, isSpacePy c = false)
    (hl : ∀ c ∈ T.getLast?, isSpacePy c = false) :
    parse_episode_info (String.mk (P ++ stem)) = some (sea, ep, String.mk T) := by
  unfold parse_episode_info
  rw [show (String.mk (P ++ stem)).data = P ++ stem from rfl,
    reSearchFirst_append epMatchAt P stem (fun c hc r => epMatchAt_not_S c r (hP c hc)),
    reSearchFirst_of_matchAt epMatchAt stem _ hm]
  simp [pyStrip_id T hh hl]

lemma parse_none_of_no_S (name : String) (h : ∀ c ∈ name.data, c ≠ 'S') :
    parse_episode_info name = none := by
  unfold parse_episode_info
  rw [reSearchFirst_none epMatchAt name.data
    (fun c hc r => epMatchAt_not_S c r (h c hc)) rfl]
  rfl

/-- C6: `parse_episode_info` on the canonical Sonarr stem shapes (an
arbitrary series prefix without `S`, the standard and anime single and
multi-episode forms): only the first episode number of a range is
extracted, the absolute-number block is excluded from the title, the
title stops at the opening bracket with surrounding whitespace trimmed;
and a stem with no episode marker at all parses to `none` rather than
failing. -/
theorem claim_C6
    (P : List Char) (hP : ∀ c ∈ P, c ≠ 'S')
    (s1 s2 e1 e2 f1 f2 : Char)
    (hs1 : s1.isDigit = true) (hs2 : s2.isDigit = true)
    (he1 : e1.isDigit = true) (he2 : e2.isDigit = true)
    (hf1 : f1.isDigit = true) (hf2 : f2.isDigit = true)
    (A A1 A2 : List Char)
    (hA : A ≠ [] ∧ ∀ c ∈ A, c.isDigit = true)
    (hA1 : A1 ≠ [] ∧ ∀ c ∈ A1, c.isDigit = true)
    (hA2 : A2 ≠ [] ∧ ∀ c ∈ A2, c.isDigit = true)
    (T : List Char) (hT : GoodTitle T)
    (Z : List Char) (hZ : tailOk Z = true) :
    parse_episode_info (String.mk (P ++ 'S' :: s1 :: s2 :: 'E' :: e1 :: e2
        :: ' ' :: '-' :: ' ' :: (T ++ Z)))
      = some (digitsToNat [s1, s2], digitsToNat [e1, e2], String.mk T)
    ∧ parse_episode_info (String.mk (P ++ 'S' :: s1 :: s2 :: 'E' :: e1 :: e2
        :: '-' :: 'E' :: f1 :: f2 :: ' ' :: '-' :: ' ' :: (T ++ Z)))
      = some (digitsToNat [s1, s2], digitsToNat [e1, e2], String.mk T)
    ∧ parse_episode_info (String.mk (P ++ 'S' :: s1 :: s2 :: 'E' :: e1 :: e2
        :: ' ' :: '-' :: ' ' :: (A ++ (' ' :: '-' :: ' ' :: (T ++ Z)))))
      = some (digitsToNat [s1, s2], digitsToNat [e1, e2], String.mk T)
    ∧ parse_episode_info (String.mk (P ++ 'S' :: s1 :: s2 :: 'E' :: e1 :: e2
        :: '-' :: 'E' :: f1 :: f2 :: ' ' :: '-' :: ' '
        :: (A1 ++ '-' :: (A2 ++ (' ' :: '-' :: ' ' :: (T ++ Z))))))
      = some (digitsToNat [s1, s2], digitsToNat [e1, e2], String.mk T)
    ∧ (∀ name : String, (∀ c ∈ name.data, c ≠ 'S') → parse_episode_info name = none) := by
  have hh : ∀ c ∈ T.head?, isSpacePy c = false := fun c hc => (hT.2.2.1 c hc).2
  have hl : ∀ c ∈ T.getLast?, isSpacePy c = false := hT.2.2.2
  refine ⟨?_, ?_, ?_, ?_, parse_none_of_no_S⟩
  · exact parse_of_form P _ hP _ _ T
      (epMatchAt_form1 s1 s2 e1 e2 hs1 hs2 he1 he2 T Z hT hZ) hh hl
  · exact parse_of_form P _ hP _ _ T
      (epMatchAt_form2 s1 s2 e1 e2 f1 f2 hs1 hs2 he1 he2 hf1 hf2 T Z hT hZ) hh hl
  · exact parse_of_form P _ hP _ _ T
      (epMatchAt_form3 s1 s2 e1 e2 hs1 hs2 he1 he2 A hA.1 hA.2 T Z hT hZ) hh hl
  · exact parse_of_form P _ hP _ _ T
      (epMatchAt_form4 s1 s2 e1 e2 f1 f2 hs1 hs2 he1 he2 hf1 hf2
        A1 A2 hA1.1 hA1.2 hA2.1 hA2.2 T Z hT hZ) hh hl

/-- C6 witness: the claim's own example, parsed through the anime-form
conjunct of the theorem. -/
theorem claim_C6_witness :
    parse_episode_info
        "Yu Yu Hakusho (1992) - S01E01 - 001 - Surprised to be Dead [Bluray-1080p Remux]"
      = some (1, 1, "Surprised to be Dead") := by
  have h := (claim_C6 "Yu Yu Hakusho (1992) - ".data (by decide)
    '0' '1' '0' '1' '0' '3' (by decide) (by decide) (by decide) (by decide)
    (by decide) (by decide)
    "001".data "001".data "003".data
    ⟨by decide, by decide⟩ ⟨by decide, by decide⟩ ⟨by decide, by decide⟩
    "Surprised to be Dead".data ⟨by decide, by decide, by decide, by decide⟩
    " [Bluray-1080p Remux]".data (by decide)).2.2.1
  exact h

/-- C10: `parse_episode_info` rejects markers whose season has one digit
or whose episode has one digit — the match needs exactly two season
digits and two-or-three episode digits. -/
theorem claim_C10
    (d s1 s2 e e1 e2 : Char)
    (hd : d.isDigit = true) (hs1 : s1.isDigit = true) (hs2 : s2.isDigit = true)
    (he : e.isDigit = true) (he1 : e1.isDigit = true) (he2 : e2.isDigit = true)
    (c : Char) (hc : c.isDigit = false) (hcS : c ≠ 'S')
    (tl : List Char) (htl : ∀ x ∈ tl, x ≠ 'S') :
    parse_episode_info (String.mk ('S' :: d :: 'E' :: e1 :: e2
        :: ' ' :: '-' :: ' ' :: tl)) = none
    ∧ parse_episode_info (String.mk ('S' :: s1 :: s2 :: 'E' :: e :: c :: tl)) = none := by
  constructor
  · have h0 : epMatchAt ('S' :: d :: 'E' :: e1 :: e2 :: ' ' :: '-' :: ' ' :: tl) = none := by
      have h1 : takeNDigits 2 (d :: 'E' :: e1 :: e2 :: ' ' :: '-' :: ' ' :: tl) = none := by
        simp [takeNDigits, hd, E_not_digit]
      simp [epMatchAt, h1]
    unfold parse_episode_info
    rw [show (String.mk ('S' :: d :: 'E' :: e1 :: e2 :: ' ' :: '-' :: ' ' :: tl)).data
        = 'S' :: d :: 'E' :: e1 :: e2 :: ' ' :: '-' :: ' ' :: tl from rfl,
      reSearchFirst, h0,
      reSearchFirst_none epMatchAt _ (fun x hx r => epMatchAt_not_S x r (by
        simp only [List.mem_cons] at hx
        rcases hx with rfl | rfl | rfl | rfl | rfl | rfl | rfl | hx
        · exact digit_ne_S x hd
        · decide
        · exact digit_ne_S x he1
        · exact digit_ne_S x he2
        · decide
        · decide
        · decide
        · exact htl x hx)) rfl]
    rfl
  · have h0 : epMatchAt ('S' :: s1 :: s2 :: 'E' :: e :: c :: tl) = none := by
      rw [epMatchAt_unfold s1 s2 hs1 hs2]
      rw [show epCands (e :: c :: tl) = [] from by simp [epCands, takeNDigits, he, hc]]
      rfl
    unfold parse_episode_info
    rw [show (String.mk ('S' :: s1 :: s2 :: 'E' :: e :: c :: tl)).data
        = 'S' :: s1 :: s2 :: 'E' :: e :: c :: tl from rfl,
      reSearchFirst, h0,
      reSearchFirst_none epMatchAt _ (fun x hx r => epMatchAt_not_S x r (by
        simp only [List.mem_cons] at hx
        rcases hx with rfl | rfl | rfl | rfl | rfl | hx
        · exact digit_ne_S x hs1
        · exact digit_ne_S x hs2
        · decide
        · exact digit_ne_S x he
        · exact hcS
        · exact htl x hx)) rfl]
    rfl

/-- C10 witness: the claim's two example stems. -/
theorem claim_C10_witness :
    parse_episode_info "S1E01 - Title" = none
    ∧ parse_episode_info "S01E1 - Title" = none := by
  constructor
  · exact (claim_C10 '1' '0' '1' '1' '0' '1' (by decide) (by decide) (by decide)
      (by decide) (by decide) (by decide) ' ' (by decide) (by decide)
      "Title".data (by decide)).1
  · exact (claim_C10 '1' '0' '1' '1' '0' '1' (by decide) (by decide) (by decide)
      (by decide) (by decide) (by decide) ' ' (by decide) (by decide)
      "- Title".data (by decide)).2

end MkbrrWizard
